import Mathlib

/-!
Verification development for the pciSeq_viewer TSV-to-Arrow converter pipeline
(`python_converters/tsv_to_arrow_shards.py`, `cell_tsv_to_arrow_shards.py`,
`boundaries_tsv_to_arrow_shards.py`).

The Python sources are shallowly embedded:
* cells of a TSV are `Option String` (`none` = pandas NA);
* JSON values (`json.loads` results) are the inductive `JVal`, with numeric
  values abstracted to `Rat` (the structural claims under study never depend
  on binary floating-point rounding, only on whether conversions succeed and
  which elements and rows are kept); non-finite literals (NaN, Infinity) are
  outside the modelled domain;
* `json.loads` is modelled by the executable fuel-based parser `jsonLoads`
  below: values are null, booleans, numbers (optional sign, no leading zeros,
  optional fraction, optional exponent), strings with escape sequences,
  arrays and objects; trailing non-whitespace input is a parse error;
* Python exceptions are `Except`/`Option` values; a caught exception is a
  `none`/`.error` consumed by the handler that the source installs.
-/

/-- A parsed JSON value, numerics abstracted to `Rat`. -/
inductive JVal where
  | jnull
  | jbool (b : Bool)
  | jnum (q : Rat)
  | jstr (s : String)
  | jlist (elems : List JVal)
  | jobj (fields : List (String × JVal))
deriving Inhabited

/-- JSON whitespace characters. -/
def isJsonWs (c : Char) : Bool :=
  c = ' ' || c = Char.ofNat 9 || c = Char.ofNat 10 || c = Char.ofNat 13

/-- Drop leading JSON whitespace. -/
def skipWs : List Char → List Char
  | [] => []
  | c :: r => if isJsonWs c then skipWs r else c :: r

/-- Numeric value of one hexadecimal digit. -/
def hexVal (c : Char) : Option Nat :=
  if c.toNat ≥ 48 && c.toNat ≤ 57 then some (c.toNat - 48)
  else if c.toNat ≥ 97 && c.toNat ≤ 102 then some (c.toNat - 87)
  else if c.toNat ≥ 65 && c.toNat ≤ 70 then some (c.toNat - 55)
  else none

/-- The double-quote character. -/
def dq : Char := Char.ofNat 34

/-- The backslash character. -/
def bsl : Char := Char.ofNat 92

/-- The single-quote (apostrophe) character. -/
def apos : Char := Char.ofNat 39

/-- Body of a JSON string literal after the opening quote: returns the decoded
string and the input remaining after the closing quote.  Mirrors strict-mode
`json.loads`: raw control characters and unknown escapes are errors.
Surrogate-pair recombination of consecutive escapes is not modelled. -/
def parseStringBody : Nat → List Char → List Char → Option (String × List Char)
  | 0, _, _ => none
  | _ + 1, [], _ => none
  | f + 1, c :: r, acc =>
    if c = dq then some (String.mk acc.reverse, r)
    else if c = bsl then
      match r with
      | [] => none
      | e :: r2 =>
        if e = dq then parseStringBody f r2 (dq :: acc)
        else if e = bsl then parseStringBody f r2 (bsl :: acc)
        else if e = '/' then parseStringBody f r2 ('/' :: acc)
        else if e = 'n' then parseStringBody f r2 (Char.ofNat 10 :: acc)
        else if e = 't' then parseStringBody f r2 (Char.ofNat 9 :: acc)
        else if e = 'r' then parseStringBody f r2 (Char.ofNat 13 :: acc)
        else if e = 'b' then parseStringBody f r2 (Char.ofNat 8 :: acc)
        else if e = 'f' then parseStringBody f r2 (Char.ofNat 12 :: acc)
        else if e = 'u' then
          match r2 with
          | h1 :: h2 :: h3 :: h4 :: r3 =>
            match hexVal h1, hexVal h2, hexVal h3, hexVal h4 with
            | some a, some b, some c2, some d =>
              parseStringBody f r3 (Char.ofNat (a * 4096 + b * 256 + c2 * 16 + d) :: acc)
            | _, _, _, _ => none
          | _ => none
        else none
    else if c.toNat < 32 then none
    else parseStringBody f r (c :: acc)

/-- Whether a character is a decimal digit. -/
def isDigitCh (c : Char) : Bool := c.toNat ≥ 48 && c.toNat ≤ 57

/-- Split a leading run of decimal digits from the input. -/
def takeDigits : List Char → List Char × List Char
  | [] => ([], [])
  | c :: r =>
    if isDigitCh c then
      let (ds, rest) := takeDigits r
      (c :: ds, rest)
    else ([], c :: r)

/-- Value of a digit run. -/
def digitsToNat (ds : List Char) : Nat :=
  ds.foldl (fun acc c => acc * 10 + (c.toNat - 48)) 0

/-- JSON number parser: sign, integer part without leading zeros, optional
fraction, optional exponent.  Returns the value as a `Rat`. -/
def parseNumber (cs : List Char) : Option (Rat × List Char) :=
  let (neg, cs1) :=
    match cs with
    | '-' :: r => (true, r)
    | _ => (false, cs)
  let (ip, cs2) := takeDigits cs1
  if ip = [] then none
  else if ip.length > 1 && ip.headD '0' = '0' then none
  else
    let (fp, cs3) :=
      match cs2 with
      | '.' :: r =>
        let (fs, rest) := takeDigits r
        (some fs, rest)
      | _ => (none, cs2)
    match fp with
    | some [] => none
    | _ =>
      let fdigits := fp.getD []
      let mantissa : Int := Int.ofNat (digitsToNat (ip ++ fdigits))
      let signed : Int := if neg then -mantissa else mantissa
      let (expPart, cs4) :=
        match cs3 with
        | c :: r =>
          if c = 'e' || c = 'E' then
            let (esign, r2) :=
              match r with
              | '-' :: rr => (true, rr)
              | '+' :: rr => (false, rr)
              | _ => (false, r)
            let (es, rest) := takeDigits r2
            if es = [] then (none, cs3)
            else (some (esign, digitsToNat es), rest)
          else (none, cs3)
        | [] => (none, cs3)
      match expPart with
      | none => some (mkRat signed (10 ^ fdigits.length), cs4)
      | some (esign, e) =>
        if esign then some (mkRat signed (10 ^ fdigits.length * 10 ^ e), cs4)
        else some (mkRat (signed * Int.ofNat (10 ^ e)) (10 ^ fdigits.length), cs4)

/-- Whether the input starts with the given literal word. -/
def stripWord : List Char → List Char → Option (List Char)
  | [], cs => some cs
  | _ :: _, [] => none
  | w :: ws, c :: cs => if c = w then stripWord ws cs else none

mutual

/-- Parse one JSON value at the head of the input (whitespace already
skipped); returns the value and the remaining input. -/
def parseValue : Nat → List Char → Option (JVal × List Char)
  | 0, _ => none
  | _ + 1, [] => none
  | f + 1, c :: r =>
    if c = 'n' then (stripWord ['u', 'l', 'l'] r).map (fun rest => (JVal.jnull, rest))
    else if c = 't' then (stripWord ['r', 'u', 'e'] r).map (fun rest => (JVal.jbool true, rest))
    else if c = 'f' then (stripWord ['a', 'l', 's', 'e'] r).map (fun rest => (JVal.jbool false, rest))
    else if c = dq then (parseStringBody f r []).map (fun (s, rest) => (JVal.jstr s, rest))
    else if c = '[' then
      match skipWs r with
      | ']' :: rest => some (JVal.jlist [], rest)
      | r2 => (parseArrayItems f r2).map (fun (l, rest) => (JVal.jlist l, rest))
    else if c = '{' then
      match skipWs r with
      | r2 =>
        if r2.headD ' ' = '}' then some (JVal.jobj [], r2.tail)
        else (parseObjItems f r2).map (fun (l, rest) => (JVal.jobj l, rest))
    else if c = '-' || isDigitCh c then
      (parseNumber (c :: r)).map (fun (q, rest) => (JVal.jnum q, rest))
    else none

/-- Parse comma-separated array items up to the closing bracket. -/
def parseArrayItems : Nat → List Char → Option (List JVal × List Char)
  | 0, _ => none
  | f + 1, cs =>
    match parseValue f cs with
    | none => none
    | some (v, rest) =>
      match skipWs rest with
      | ']' :: rest2 => some ([v], rest2)
      | ',' :: rest2 => (parseArrayItems f (skipWs rest2)).map (fun (l, r3) => (v :: l, r3))
      | _ => none

/-- Parse comma-separated object members up to the closing brace. -/
def parseObjItems : Nat → List Char → Option (List (String × JVal) × List Char)
  | 0, _ => none
  | f + 1, cs =>
    match cs with
    | c :: r =>
      if c = dq then
        match parseStringBody f r [] with
        | none => none
        | some (k, rest) =>
          match skipWs rest with
          | ':' :: rest2 =>
            match parseValue f (skipWs rest2) with
            | none => none
            | some (v, rest3) =>
              match skipWs rest3 with
              | r4 =>
                if r4.headD ' ' = '}' then some ([(k, v)], r4.tail)
                else if r4.headD ' ' = ',' then
                  (parseObjItems f (skipWs r4.tail)).map (fun (l, r5) => ((k, v) :: l, r5))
                else none
          | _ => none
      else none
    | [] => none

end

/-- Model of Python `json.loads` on the modelled JSON fragment: parse one
value, allow surrounding whitespace, and fail on any trailing content
(`json.loads` raises `JSONDecodeError` on extra data). -/
def jsonLoads (s : String) : Option JVal :=
  match parseValue (s.length + 2) (skipWs s.toList) with
  | none => none
  | some (v, rest) => if skipWs rest = [] then some v else none

def numOf (v : Option JVal) : Rat :=
  match v with
  | some (JVal.jnum q) => q
  | _ => 0


/-!
Models of the Python scalar conversions used by the converters:
`float(x)` / `int(x)` on `json.loads` results, and string-to-number parsing
as performed by `float(str)`, `int(str)` and `pandas.to_numeric(errors="coerce")`.
Numeric domains are abstracted to `Rat`, non-finite values excluded.
-/

/-- Truncation toward zero, as Python `int(float)` and numpy float-to-int
casts perform. -/
def ratTrunc (q : Rat) : Int :=
  if q.num < 0 then -(((-q.num).toNat / q.den : Nat) : Int)
  else ((q.num.toNat / q.den : Nat) : Int)

/-- Parse a float-formatted string the way Python `float(str)` and
`pandas.to_numeric` accept it: optional surrounding whitespace, optional
sign, digits with optional fraction and exponent (at least one digit
overall).  Non-finite spellings (`nan`, `inf`) are outside the model. -/
def parseFloatStr (s : String) : Option Rat :=
  let cs := skipWs s.toList
  let (neg, cs1) :=
    match cs with
    | '-' :: r => (true, r)
    | '+' :: r => (false, r)
    | _ => (false, cs)
  let (ip, cs2) := takeDigits cs1
  let (fp, cs3) :=
    match cs2 with
    | '.' :: r =>
      let (fs, rest) := takeDigits r
      (some fs, rest)
    | _ => (none, cs2)
  if ip = [] && fp.getD [] = [] then none
  else
    let fdigits := fp.getD []
    let mantissa : Int := Int.ofNat (digitsToNat (ip ++ fdigits))
    let signed : Int := if neg then -mantissa else mantissa
    let (expPart, cs4) :=
      match cs3 with
      | c :: r =>
        if c = 'e' || c = 'E' then
          let (esign, r2) :=
            match r with
            | '-' :: rr => (true, rr)
            | '+' :: rr => (false, rr)
            | _ => (false, r)
          let (es, rest) := takeDigits r2
          if es = [] then (none, cs3)
          else (some (esign, digitsToNat es), rest)
        else (none, cs3)
      | [] => (none, cs3)
    let value : Option Rat :=
      match expPart with
      | none => some (mkRat signed (10 ^ fdigits.length))
      | some (esign, e) =>
        if esign then some (mkRat signed (10 ^ fdigits.length * 10 ^ e))
        else some (mkRat (signed * Int.ofNat (10 ^ e)) (10 ^ fdigits.length))
    match value with
    | none => none
    | some v => if skipWs cs4 = [] then some v else none

/-- Parse an integer-formatted string the way Python `int(str)` accepts it:
optional surrounding whitespace, optional sign, decimal digits only
(`int("1.5")` raises). -/
def parseIntStr (s : String) : Option Int :=
  let cs := skipWs s.toList
  let (neg, cs1) :=
    match cs with
    | '-' :: r => (true, r)
    | '+' :: r => (false, r)
    | _ => (false, cs)
  let (ds, rest) := takeDigits cs1
  if ds = [] then none
  else if skipWs rest = [] then
    let n : Int := Int.ofNat (digitsToNat ds)
    some (if neg then -n else n)
  else none

/-- Python `float(x)` on a `json.loads` result: numbers pass through,
booleans become 0/1, numeric strings are parsed, everything else raises
(`none`). -/
def pyFloat : JVal → Option Rat
  | .jnum q => some q
  | .jbool b => some (if b then 1 else 0)
  | .jstr s => parseFloatStr s
  | _ => none

/-- Python `int(x)` on a `json.loads` result: numbers truncate toward zero,
booleans become 0/1, integer-formatted strings are parsed, everything else
raises (`none`). -/
def pyInt : JVal → Option Int
  | .jnum q => some (ratTrunc q)
  | .jbool b => some (if b then 1 else 0)
  | .jstr s => parseIntStr s
  | _ => none

/-- `pandas.to_numeric(cell, errors="coerce")` on one string cell: `none`
(NaN) for a missing cell or a cell that does not parse as a number. -/
def toNum (cell : Option String) : Option Rat :=
  cell.bind parseFloatStr

mutual

/-- Python `repr` of a `json.loads` result, as used by `str()` on
containers.  String quoting and float formatting are approximated (strings
are shown in single quotes without escape processing; rationals with
denominator 1 print as integers, others in fraction notation).  No claim
under study depends on these renderings. -/
def pyRepr : JVal → String
  | .jnull => "None"
  | .jbool b => if b then "True" else "False"
  | .jnum q =>
    if q.den = 1 then toString q.num
    else toString q.num ++ "/" ++ toString q.den
  | .jstr s => String.mk [apos] ++ s ++ String.mk [apos]
  | .jlist l => "[" ++ pyReprList l ++ "]"
  | .jobj kvs => "dict" ++ pyReprObj kvs

/-- Comma-separated `repr` of list elements. -/
def pyReprList : List JVal → String
  | [] => ""
  | [x] => pyRepr x
  | x :: xs => pyRepr x ++ ", " ++ pyReprList xs

/-- Comma-separated `repr` of object members. -/
def pyReprObj : List (String × JVal) → String
  | [] => ""
  | (k, v) :: xs => "(" ++ k ++ ": " ++ pyRepr v ++ ")" ++ pyReprObj xs

end

/-- Python `str(x)` on a `json.loads` result: identity on strings, `repr`
otherwise. -/
def pyStr (v : JVal) : String :=
  match v with
  | .jstr s => s
  | _ => pyRepr v

/-!
`ListCoercer` models, translated from the three converter sources.
-/

/-- Loop body of `parse_coords` in `boundaries_tsv_to_arrow_shards.py`
(lines 59-65): for each element of the decoded array, elements that are not
two-element lists are skipped (`continue`), and `float` conversion is applied
to both components *inside the same `try` block*, so a failing conversion
raises out of the loop (`none` here, caught by the outer handler). -/
def coordsLoop : List JVal → Option (List (Rat × Rat))
  | [] => some []
  | p :: rest =>
    match p with
    | .jlist l =>
      if h : l.length = 2 then
        match pyFloat (l.get ⟨0, by omega⟩), pyFloat (l.get ⟨1, by omega⟩) with
        | some x, some y => (coordsLoop rest).map (fun out => (x, y) :: out)
        | _, _ => none
      else coordsLoop rest
    | _ => coordsLoop rest

/-- `parse_coords` in `boundaries_tsv_to_arrow_shards.py` (lines 52-67):
missing cell gives `[]`; `json.loads` failure or any exception inside the
loop gives `[]`; a decoded non-list value makes the `for` loop either
iterate over non-pair items (strings, objects: every item skipped, result
`[]`) or raise (numbers, booleans, null: caught, result `[]`) — in all
cases `[]`, which the `some _ => []` arm reflects. -/
def parse_coords (cell : Option String) : List (Rat × Rat) :=
  match cell with
  | none => []
  | some s =>
    match jsonLoads s with
    | some (.jlist arr) => (coordsLoop arr).getD []
    | some _ => []
    | none => []

/-- Loop body of `_parse_int_list` in `tsv_to_arrow_shards.py` (lines
60-66): each element is converted by `int(x)` inside its own
`try`/`except`, so a failing element is skipped on its own. -/
def intListLoop : List JVal → List Int
  | [] => []
  | x :: rest =>
    match pyInt x with
    | some n => n :: intListLoop rest
    | none => intListLoop rest

/-- `_parse_int_list` in `tsv_to_arrow_shards.py` (lines 54-69): missing
cell gives `None`; decode failure gives `None` (the `except` returns
`None`); a decoded non-list falls through to the final `return None`. -/
def parse_int_list (cell : Option String) : Option (List Int) :=
  match cell with
  | none => none
  | some s =>
    match jsonLoads s with
    | some (.jlist v) => some (intListLoop v)
    | some _ => none
    | none => none

/-- Loop body of `_parse_float_list` in `tsv_to_arrow_shards.py` (lines
78-84), per-element `try`/`except` around `float(x)`. -/
def floatListLoop : List JVal → List Rat
  | [] => []
  | x :: rest =>
    match pyFloat x with
    | some v => v :: floatListLoop rest
    | none => floatListLoop rest

/-- `_parse_float_list` in `tsv_to_arrow_shards.py` (lines 72-87). -/
def parse_float_list (cell : Option String) : Option (List Rat) :=
  match cell with
  | none => none
  | some s =>
    match jsonLoads s with
    | some (.jlist v) => some (floatListLoop v)
    | some _ => none
    | none => none

/-- The quote replacement `cell_value.replace(chr(39), chr(34))` performed by
`parse_list_column` in `cell_tsv_to_arrow_shards.py` (line 58) before
`json.loads`: every single-quote character becomes a double quote. -/
def replaceQuotes (s : String) : String :=
  String.mk (s.toList.map (fun c => if c = apos then dq else c))

/-- List comprehension `[float(x) for x in parsed]` of `parse_list_column`
(line 61): a single failing conversion raises out of the whole
comprehension (`none`), caught by the surrounding handler. -/
def cellFloatsLoop : List JVal → Option (List Rat)
  | [] => some []
  | x :: rest =>
    match pyFloat x with
    | some v => (cellFloatsLoop rest).map (fun out => v :: out)
    | none => none

/-- `parse_cell` of `parse_list_column` in `cell_tsv_to_arrow_shards.py`
(lines 43-69) in `parse_as=float` mode, for string-typed frames (the
`isinstance(cell_value, (list, tuple))` branch is unreachable because the
frame is read with `dtype="string"`): missing cell gives `[]`; quotes are
replaced; decode failure, a decoded non-list, or a failing `float(x)` give
`[]`. -/
def parse_cell_floats (cell : Option String) : List Rat :=
  match cell with
  | none => []
  | some s =>
    match jsonLoads (replaceQuotes s) with
    | some (.jlist parsed) => (cellFloatsLoop parsed).getD []
    | some _ => []
    | none => []

/-- `parse_cell` of `parse_list_column` in `parse_as=string` mode (line
63): `str(x)` never raises, so every element is kept. -/
def parse_cell_strings (cell : Option String) : List String :=
  match cell with
  | none => []
  | some s =>
    match jsonLoads (replaceQuotes s) with
    | some (.jlist parsed) => parsed.map pyStr
    | some _ => []
    | none => []


/-!
Chunked reading: `pd.read_csv(..., chunksize=k)` yields successive batches
of exactly `k` rows, the final one possibly shorter; an empty source body
yields no chunk at all.
-/

/-- Structural worker for `chunksOf`: the fuel bounds the number of chunks
and always suffices when it is at least the list length. -/
def chunksOfAux (k : Nat) : Nat → List α → List (List α)
  | _, [] => []
  | 0, _ :: _ => []
  | fuel + 1, x :: xs => (x :: xs).take k :: chunksOfAux k fuel ((x :: xs).drop k)

/-- Split a list into consecutive chunks of size `k` (last one possibly
shorter).  `k = 0` is rejected by pandas and yields no chunks here. -/
def chunksOf (k : Nat) (l : List α) : List (List α) :=
  if k = 0 then [] else chunksOfAux k l.length l

theorem chunksOfAux_irrel (k : Nat) (hk : 0 < k) :
    ∀ (f1 : Nat) (l : List α) (f2 : Nat), l.length ≤ f1 → l.length ≤ f2 →
      chunksOfAux k f1 l = chunksOfAux k f2 l := by
  intro f1
  induction f1 with
  | zero =>
    intro l f2 h1 _
    have hnil : l = [] := List.eq_nil_of_length_eq_zero (Nat.le_zero.mp h1)
    subst hnil
    cases f2 <;> rfl
  | succ f ih =>
    intro l f2 h1 h2
    cases l with
    | nil => cases f2 <;> rfl
    | cons x xs =>
      cases f2 with
      | zero => simp at h2
      | succ f2p =>
        show (x :: xs).take k :: chunksOfAux k f ((x :: xs).drop k) =
          (x :: xs).take k :: chunksOfAux k f2p ((x :: xs).drop k)
        congr 1
        apply ih
        · simp only [List.length_drop, List.length_cons]
          simp only [List.length_cons] at h1
          omega
        · simp only [List.length_drop, List.length_cons]
          simp only [List.length_cons] at h2
          omega

theorem chunksOf_nil (k : Nat) : chunksOf k ([] : List α) = [] := by
  unfold chunksOf
  by_cases hk : k = 0 <;> simp [hk, chunksOfAux]

theorem chunksOf_cons (k : Nat) (hk : 0 < k) (x : α) (xs : List α) :
    chunksOf k (x :: xs) = (x :: xs).take k :: chunksOf k ((x :: xs).drop k) := by
  have hkne : ¬ k = 0 := by omega
  unfold chunksOf
  rw [if_neg hkne, if_neg hkne]
  show (x :: xs).take k :: chunksOfAux k xs.length ((x :: xs).drop k) = _
  congr 1
  apply chunksOfAux_irrel k hk
  · simp only [List.length_drop, List.length_cons]; omega
  · exact le_refl _

/-- Wrap an integer into `uint32` range, as the numpy cast underlying
`astype("uint32")` does. -/
def wrapU32 (n : Int) : Nat := (n.emod (2 ^ 32)).toNat

/-- Wrap an integer into `int32` range, as the numpy cast underlying
`astype("int32")` does. -/
def wrapI32 (n : Int) : Int := (n + 2 ^ 31).emod (2 ^ 32) - 2 ^ 31

namespace Spots

/-- One raw row of `geneData.tsv` as read with `dtype="string"`: every cell
is a string or missing.  A field of a column absent from the header is
irrelevant (the corresponding `SpotCols` flag is false and the field is
never read). -/
structure SpotRow where
  x : Option String := none
  y : Option String := none
  z : Option String := none
  plane_id : Option String := none
  spot_id : Option String := none
  parent_cell_id : Option String := none
  gene_id : Option String := none
  gene_name : Option String := none
  neighbour_array : Option String := none
  neighbour_prob : Option String := none
  omp_score : Option String := none
  omp_intensity : Option String := none
deriving DecidableEq, Inhabited

/-- Which of the recognised source columns the TSV header declares
(`"x" in df.columns` tests in `infer_and_cast` and `main`). -/
structure SpotCols where
  x : Bool := false
  y : Bool := false
  z : Bool := false
  plane_id : Bool := false
  spot_id : Bool := false
  parent_cell_id : Bool := false
  gene_id : Bool := false
  gene_name : Bool := false
  neighbour_array : Bool := false
  neighbour_prob : Bool := false
  omp_score : Bool := false
  omp_intensity : Bool := false
deriving DecidableEq, Inhabited

/-- One typed output column of a batch. -/
inductive ColData where
  | floatCol (vals : List (Option Rat))
  | uint16Col (vals : List Nat)
  | uint32Col (vals : List Nat)
  | int32Col (vals : List Int)
  | strCol (vals : List (Option String))
  | intListCol (vals : List (Option (List Int)))
  | floatListCol (vals : List (Option (List Rat)))
deriving DecidableEq

/-- Number of rows of one column. -/
def colLen : ColData → Nat
  | .floatCol v => v.length
  | .uint16Col v => v.length
  | .uint32Col v => v.length
  | .int32Col v => v.length
  | .strCol v => v.length
  | .intListCol v => v.length
  | .floatListCol v => v.length

/-- One cell of the `astype("uint16", errors="ignore")` attempt: an
in-range integer string casts, anything else (missing, non-integer,
negative, out of range) raises. -/
def uint16Cell (cell : Option String) : Option Nat :=
  match cell with
  | none => none
  | some s =>
    match parseIntStr s with
    | some n => if 0 ≤ n && n < 65536 then some n.toNat else none
    | none => none

/-- `astype("uint16", errors="ignore")` on a string column: if every cell is
an in-range integer string the whole column is cast, otherwise *the whole
column* silently stays string-typed (negative or out-of-range handling of
the underlying numpy cast is approximated as a failure). -/
def uint16TryCast : List (Option String) → Option (List Nat)
  | [] => some []
  | cell :: rest =>
    match uint16Cell cell with
    | some n => (uint16TryCast rest).map (fun t => n :: t)
    | none => none

/-- `pd.to_numeric(col, errors="coerce").astype("uint32")`: any NaN
(missing or unparsable cell) makes the cast raise
(`Cannot convert non-finite values to integer`); otherwise values truncate
toward zero and wrap into `uint32`. -/
def castUint32 (cells : List (Option String)) : Except String ColData :=
  let nums := cells.map toNum
  if nums.all (fun o => o.isSome) then
    .ok (.uint32Col (nums.map (fun o => wrapU32 (ratTrunc (o.getD 0)))))
  else .error "Cannot convert non-finite values (NA or inf) to integer"

/-- One cell of the raw `astype("float32")` cast on a string-dtype column:
a missing cell (pd.NA) converts to NaN without error, a present cell must
parse as a float or the whole cast raises. -/
def floatCellOk (cell : Option String) : Bool :=
  match cell with
  | none => true
  | some s => (parseFloatStr s).isSome

/-- `infer_and_cast` lines 93-95: `.astype("float32")` applied directly to
the string-dtype `x`/`y`/`z` columns (`read_csv` at line 130 reads every
column as string).  Missing cells become NaN, kept as null, but a present
cell that does not parse as a float makes the cast raise `ValueError`,
aborting the run. -/
def castFloatRaise (cells : List (Option String)) : Except String ColData :=
  if cells.all floatCellOk then .ok (.floatCol (cells.map toNum))
  else .error "could not convert string to float"

/-- `infer_and_cast` lines 110-113: `pd.to_numeric(errors="coerce")`
followed by `astype("float32")` for `omp_score` / `omp_intensity` —
unparsable cells coerce to NaN, kept as null, and the cast never raises. -/
def castFloat (cells : List (Option String)) : Except String ColData :=
  .ok (.floatCol (cells.map toNum))

/-- `infer_and_cast` line 96. -/
def buildPlaneId (rows : List SpotRow) : Except String ColData :=
  let cells := rows.map SpotRow.plane_id
  match uint16TryCast cells with
  | some ns => .ok (.uint16Col ns)
  | none => .ok (.strCol cells)

/-- `infer_and_cast` line 100: `fillna(-1).astype("int32")` — the sentinel
for a missing or unparsable `parent_cell_id`. -/
def buildParentCellId (rows : List SpotRow) : Except String ColData :=
  .ok (.int32Col (rows.map (fun r => wrapI32 (ratTrunc ((toNum r.parent_cell_id).getD (-1))))))

/-- `infer_and_cast` lines 106-109: the nested list columns. -/
def buildNeighbourArray (rows : List SpotRow) : Except String ColData :=
  .ok (.intListCol (rows.map (fun r => parse_int_list r.neighbour_array)))

/-- `infer_and_cast` line 108-109. -/
def buildNeighbourProb (rows : List SpotRow) : Except String ColData :=
  .ok (.floatListCol (rows.map (fun r => parse_float_list r.neighbour_prob)))

/-- The ordered column construction of `infer_and_cast` (lines 92-115):
one entry per recognised source column, in source order; the flag records
header presence.  `gene_name` is deliberately absent (line 103: removed
from the Arrow output). -/
def colPlan (c : SpotCols) : List (Bool × String × (List SpotRow → Except String ColData)) :=
  [(c.x, "x", fun rows => castFloatRaise (rows.map SpotRow.x)),
   (c.y, "y", fun rows => castFloatRaise (rows.map SpotRow.y)),
   (c.z, "z", fun rows => castFloatRaise (rows.map SpotRow.z)),
   (c.plane_id, "plane_id", buildPlaneId),
   (c.spot_id, "spot_id", fun rows => castUint32 (rows.map SpotRow.spot_id)),
   (c.parent_cell_id, "parent_cell_id", buildParentCellId),
   (c.gene_id, "gene_id", fun rows => castUint32 (rows.map SpotRow.gene_id)),
   (c.neighbour_array, "neighbour_array", buildNeighbourArray),
   (c.neighbour_prob, "neighbour_prob", buildNeighbourProb),
   (c.omp_score, "omp_score", fun rows => castFloat (rows.map SpotRow.omp_score)),
   (c.omp_intensity, "omp_intensity", fun rows => castFloat (rows.map SpotRow.omp_intensity))]

/-- Evaluate the column plan in order; the first raising cast aborts, as
the corresponding Python line would. -/
def buildCols : List (Bool × String × (List SpotRow → Except String ColData)) →
    List SpotRow → Except String (List (String × ColData))
  | [], _ => .ok []
  | (flag, name, f) :: rest, rows =>
    if flag then
      match f rows with
      | .error e => .error e
      | .ok cd => (buildCols rest rows).map (fun t => (name, cd) :: t)
    else buildCols rest rows

/-- The typed batch produced from one chunk (`pd.DataFrame(cols)`). -/
structure SpotDF where
  cols : List (String × ColData)
deriving DecidableEq

/-- `infer_and_cast` of `tsv_to_arrow_shards.py` (lines 90-115). -/
def infer_and_cast (c : SpotCols) (rows : List SpotRow) : Except String SpotDF :=
  (buildCols (colPlan c) rows).map SpotDF.mk

/-- `len(df)`: the common column length, `0` for a frame with no columns. -/
def dfLen (df : SpotDF) : Nat :=
  match df.cols with
  | [] => 0
  | (_, cd) :: _ => colLen cd

/-- Column lookup in a batch. -/
def dfCol (df : SpotDF) (name : String) : Option ColData :=
  (df.cols.find? (fun p => p.1 == name)).map (fun p => p.2)

/-- The per-row (gene_id, gene_name) pairs collected by `main` lines
144-145: `pd.to_numeric(chunk["gene_id"], errors="coerce").fillna(0).astype(int)`
zipped with `chunk["gene_name"].fillna("")`. -/
def genePairs (rows : List SpotRow) : List (Int × String) :=
  rows.map (fun r => (ratTrunc ((toNum r.gene_id).getD 0), r.gene_name.getD ""))

/-- Insert-or-replace for the gene dictionary: an existing key keeps its
position and takes the new value; a new key is appended.  This is the
semantics of building a Python dict from pairs and of `dict.update`. -/
def dictUpdate (d : List (Int × String)) (k : Int) (v : String) : List (Int × String) :=
  if d.any (fun p => p.1 = k) then d.map (fun p => if p.1 = k then (k, v) else p)
  else d ++ [(k, v)]

/-- Fold a pair list into the accumulated dictionary.  `dict(zip(...))`
followed by `gene_dict_data.update(...)` (lines 144-146) is exactly a left
fold of insert-or-replace over the pairs of the chunk in row order. -/
def dictInsertAll (d : List (Int × String)) (pairs : List (Int × String)) : List (Int × String) :=
  pairs.foldl (fun acc p => dictUpdate acc p.1 p.2) d

/-- Insert into a key-sorted association list. -/
def insertSorted (p : Int × String) : List (Int × String) → List (Int × String)
  | [] => [p]
  | q :: rest => if p.1 ≤ q.1 then p :: q :: rest else q :: insertSorted p rest

/-- `dict(sorted(gene_dict_data.items()))` (line 199): entries sorted by
ascending key (keys are unique, so tuple order reduces to key order). -/
def sortByKey (d : List (Int × String)) : List (Int × String) :=
  d.foldr insertSorted []

/-- Zero-padded three-digit shard index (the spots shard name format string with a three-digit zero-padded index). -/
def pad3 (n : Nat) : String :=
  if n < 10 then "00" ++ toString n
  else if n < 100 then "0" ++ toString n
  else toString n

/-- Shard file name of chunk `i`. -/
def spotsShardName (i : Nat) : String :=
  "spots_shard_" ++ pad3 i ++ ".feather"

/-- Observable filesystem effects of one spots-converter run; a shard write
carries the typed table serialised into the Feather file. -/
inductive Event where
  | shardWrite (url : String) (df : SpotDF)
  | manifestWrite (total_rows : Nat) (shards : List (String × Nat))
  | dictWrite (entries : List (Int × String))
deriving DecidableEq

/-- The chunk loop of `main` (lines 137-201): per chunk, accumulate the
gene dictionary, cast the chunk (a raising cast aborts the run with the
events so far), write one shard, count its rows; after the last chunk write
the manifest once, then the gene dictionary if it is non-empty. -/
def runChunks (c : SpotCols) : List (List SpotRow) → Nat → List Event →
    List (String × Nat) → Nat → Option (List (Int × String)) → List Event × Bool
  | [], _, evs, shards, total, gd =>
    let evs1 := evs ++ [Event.manifestWrite total shards]
    match gd with
    | some d =>
      if d.isEmpty then (evs1, true)
      else (evs1 ++ [Event.dictWrite (sortByKey d)], true)
    | none => (evs1, true)
  | chunk :: rest, idx, evs, shards, total, gd =>
    let gd1 :=
      if c.gene_id && c.gene_name then some (dictInsertAll (gd.getD []) (genePairs chunk))
      else gd
    match infer_and_cast c chunk with
    | .error _ => (evs, false)
    | .ok df =>
      let n := dfLen df
      runChunks c rest (idx + 1) (evs ++ [Event.shardWrite (spotsShardName idx) df])
        (shards ++ [(spotsShardName idx, n)]) (total + n) gd1

/-- `main` of `tsv_to_arrow_shards.py` over an already-read input: header
flags, data rows, `--rows-per-shard`.  `chunksize=0` is rejected by pandas
before any output is produced. -/
def runSpots (c : SpotCols) (rows : List SpotRow) (k : Nat) : List Event × Bool :=
  if k = 0 then ([], false)
  else runChunks c (chunksOf k rows) 0 [] [] 0 none

/-- Whether an event is a shard file write. -/
def isShardEv : Event → Bool
  | .shardWrite _ _ => true
  | _ => false

/-- Whether an event is the gene-dictionary sidecar write. -/
def isDictEv : Event → Bool
  | .dictWrite _ => true
  | _ => false

/-- The tables written to shard files, in write order. -/
def shardDfs (evs : List Event) : List SpotDF :=
  evs.filterMap (fun e =>
    match e with
    | .shardWrite _ df => some df
    | _ => none)

/-- The manifest contents written during a run (the converter writes at most
one). -/
def manifestOf (evs : List Event) : Option (Nat × List (String × Nat)) :=
  (evs.filterMap (fun e =>
    match e with
    | .manifestWrite t sh => some (t, sh)
    | _ => none)).head?

/-- The gene-dictionary sidecar written during a run, if any. -/
def dictOf (evs : List Event) : Option (List (Int × String)) :=
  (evs.filterMap (fun e =>
    match e with
    | .dictWrite d => some d
    | _ => none)).head?

/-- Whether the header declares at least one column that `infer_and_cast`
recognises (note `gene_name` is not one: it is dropped from the output). -/
def somePresent (c : SpotCols) : Bool :=
  c.x || c.y || c.z || c.plane_id || c.spot_id || c.parent_cell_id || c.gene_id ||
    c.neighbour_array || c.neighbour_prob || c.omp_score || c.omp_intensity

/-- The dictionary key `main` derives for one row:
`to_numeric(gene_id, errors="coerce").fillna(0).astype(int)`. -/
def geneKey (r : SpotRow) : Int :=
  ratTrunc ((toNum r.gene_id).getD 0)

/-- Association-list lookup by key. -/
def alookup (k : Int) : List (Int × String) → Option String
  | [] => none
  | p :: rest => if p.1 = k then some p.2 else alookup k rest

/-- The value paired with the *last* occurrence of a key in a pair list —
the reference semantics of repeated dict insertion. -/
def lastPairValue (pairs : List (Int × String)) (k : Int) : Option String :=
  ((pairs.filter (fun p => p.1 = k)).getLast?).map (fun p => p.2)

/-- Row sizes of a row-sharded input: `(n-1)/k` full shards of `k` rows
followed by one shard holding the remainder; an empty input has no shards. -/
def chunkLens (k n : Nat) : List Nat :=
  if n = 0 then [] else List.replicate ((n - 1) / k) k ++ [n - k * ((n - 1) / k)]

end Spots

namespace Bounds

/-- One raw row of a `plane_*.tsv` boundary file, read with
dtype Int64 for `plane_id` and `label` and string for `coords`:
`none` in `plane_id`/`label` is a missing (NA) value — non-integer text in
those columns would already abort `read_csv` itself, which is also fatal. -/
structure BRow where
  plane_id : Option Int := none
  label : Option Int := none
  coords : Option String := none
deriving DecidableEq, Inhabited

/-- One surviving polygon row (lines 128-135). -/
structure Kept where
  xs : List Rat
  ys : List Rat
  pid : Int
  lab : Int
deriving DecidableEq

/-- The row loop of `main` (lines 122-135): `int(pd.to_numeric(...))` on a
missing `plane_id` or `label` raises (fatal, `.error`); a row whose
`parse_coords` result is empty is skipped (`continue`); the second
`if not xs` test can never fire after a non-empty coordinate list but is
kept for fidelity. -/
def processRows : List BRow → Except Unit (List Kept)
  | [] => .ok []
  | r :: rest =>
    match r.plane_id with
    | none => .error ()
    | some pid =>
      match r.label with
      | none => .error ()
      | some lab =>
        let cs := parse_coords r.coords
        if cs.isEmpty then processRows rest
        else
          let xs := cs.map Prod.fst
          let ys := cs.map Prod.snd
          if xs.isEmpty then processRows rest
          else (processRows rest).map (fun t => Kept.mk xs ys pid lab :: t)

/-- The two-digit zero-padded rendering of the plane id: padded for `0 ≤ pid ≤ 9`, plain
rendering otherwise (negative values keep their sign). -/
def pad2Int (n : Int) : String :=
  if 0 ≤ n && n < 10 then "0" ++ toString n else toString n

/-- Manifest shard descriptor (line 152). -/
structure BShard where
  url : String
  rows : Nat
  plane : Int
deriving DecidableEq

/-- Manifest document (lines 156-161). -/
structure BManifest where
  total_rows : Nat
  total_points : Nat
  shards : List BShard
deriving DecidableEq

/-- Observable filesystem effects of one boundaries-converter run. -/
inductive Event where
  | shardWrite (url : String) (rows : Nat)
  | manifestWrite (m : BManifest)
deriving DecidableEq

/-- Shard descriptor and point count of one plane file (lines 137-152):
file suffix from the plane id of the first surviving row, `"00"` for a file with
no surviving rows; manifest `plane` is `-1` in that case. -/
def shardOf (kept : List Kept) : BShard × Nat :=
  let suffix :=
    match kept.head? with
    | some k0 => pad2Int k0.pid
    | none => "00"
  let sh : BShard :=
    { url := "boundaries_plane_" ++ suffix ++ ".feather",
      rows := kept.length,
      plane := ((kept.head?.map Kept.pid).getD (-1)) }
  (sh, (kept.map (fun kk => kk.xs.length)).sum)

/-- The file loop of `main` (lines 113-162): process each plane file, write
its shard, accumulate totals; after the last file write the manifest once.
A raising row aborts the run with the events so far. -/
def goFiles : List (List BRow) → List Event → List BShard → Nat → Nat → List Event × Bool
  | [], evs, shards, tp, tpts => (evs ++ [Event.manifestWrite ⟨tp, tpts, shards⟩], true)
  | f :: rest, evs, shards, tp, tpts =>
    match processRows f with
    | .error _ => (evs, false)
    | .ok kept =>
      let (sh, pts) := shardOf kept
      goFiles rest (evs ++ [Event.shardWrite sh.url sh.rows]) (shards ++ [sh])
        (tp + sh.rows) (tpts + pts)

/-- `main` of `boundaries_tsv_to_arrow_shards.py` over the already-globbed,
sorted plane files: an empty file list raises `SystemExit` (line 107)
before anything is written. -/
def runBounds (files : List (List BRow)) : List Event × Bool :=
  if files.isEmpty then ([], false) else goFiles files [] [] 0 0

/-- Whether an event is a shard file write. -/
def isShardEv : Event → Bool
  | .shardWrite _ _ => true
  | _ => false

/-- The manifests written during a run (the converter writes at most one). -/
def manifestsOf (evs : List Event) : List BManifest :=
  evs.filterMap (fun e =>
    match e with
    | .manifestWrite m => some m
    | _ => none)

/-- The geometry-emptiness filter: a row survives iff `parse_coords` yields
at least one usable element. -/
def keepRow (r : BRow) : Bool :=
  !(parse_coords r.coords).isEmpty

/-- The `Kept` record a surviving row contributes (lines 128-135). -/
def mkKeptRow (r : BRow) : Kept :=
  { xs := (parse_coords r.coords).map Prod.fst,
    ys := (parse_coords r.coords).map Prod.snd,
    pid := r.plane_id.getD 0,
    lab := r.label.getD 0 }

/-- The surviving rows of one plane file, in source order. -/
def bKeptOf (f : List BRow) : List Kept :=
  (f.filter keepRow).map mkKeptRow

/-- The shard descriptor one plane file contributes. -/
def fileShard (f : List BRow) : BShard :=
  (shardOf (bKeptOf f)).1

/-- The point count one plane file contributes. -/
def filePts (f : List BRow) : Nat :=
  (shardOf (bKeptOf f)).2

end Bounds

/-- `dfOf c ch` is the table `infer_and_cast` produces from chunk `ch` when
it does not raise (the empty table otherwise; only used under a
no-raise hypothesis). -/
def Spots.dfOf (c : Spots.SpotCols) (ch : List Spots.SpotRow) : Spots.SpotDF :=
  match Spots.infer_and_cast c ch with
  | .ok df => df
  | .error _ => ⟨[]⟩

namespace Spots

/-- The shard-write events a successful run appends for consecutive chunks
starting at shard index `idx`. -/
def shardEvsFrom (c : SpotCols) : Nat → List (List SpotRow) → List Event
  | _, [] => []
  | idx, ch :: rest =>
    Event.shardWrite (spotsShardName idx) (dfOf c ch) :: shardEvsFrom c (idx + 1) rest

/-- The manifest shard descriptors a successful run appends for consecutive
chunks starting at shard index `idx`. -/
def shardListFrom (c : SpotCols) : Nat → List (List SpotRow) → List (String × Nat)
  | _, [] => []
  | idx, ch :: rest =>
    (spotsShardName idx, dfLen (dfOf c ch)) :: shardListFrom c (idx + 1) rest

/-- Total row count over chunks in a successful run. -/
def totalOf (c : SpotCols) (chunks : List (List SpotRow)) : Nat :=
  (chunks.map (fun ch => dfLen (dfOf c ch))).sum

/-- The effect of one chunk on the accumulated gene dictionary (lines 139-146). -/
def stepGd (c : SpotCols) (gd : Option (List (Int × String))) (ch : List SpotRow) :
    Option (List (Int × String)) :=
  if c.gene_id && c.gene_name then some (dictInsertAll (gd.getD []) (genePairs ch)) else gd

/-- The gene dictionary accumulated over all chunks. -/
def finalGd (c : SpotCols) (gd : Option (List (Int × String)))
    (chunks : List (List SpotRow)) : Option (List (Int × String)) :=
  chunks.foldl (stepGd c) gd

/-- The trailing dictionary-write event of a successful run (lines
196-200): present only when a gene dictionary was accumulated and is
non-empty. -/
def dictTail : Option (List (Int × String)) → List Event
  | some d => if d.isEmpty then [] else [Event.dictWrite (sortByKey d)]
  | none => []

/-- The column that `buildCols` produces under a given name: the first plan
entry with a set flag and that name (plan names are distinct). -/
def firstActive : List (Bool × String × (List SpotRow → Except String ColData)) →
    String → List SpotRow → Option ColData
  | [], _, _ => none
  | (fl, n, f) :: rest, nm, rows =>
    if fl && n == nm then (f rows).toOption else firstActive rest nm rows

/-- Distinctness of dictionary keys. -/
def NodupKeys (d : List (Int × String)) : Prop :=
  (d.map Prod.fst).Nodup

/-- The `parent_cell_id` output value of one row
(`to_numeric(errors="coerce").fillna(-1).astype("int32")`). -/
def parentVal (r : SpotRow) : Int :=
  wrapI32 (ratTrunc ((toNum r.parent_cell_id).getD (-1)))

/-- The `gene_id` output value of one row
(`to_numeric(errors="coerce").astype("uint32")`, which raised on no row of a
successful run). -/
def geneVal (r : SpotRow) : Nat :=
  wrapU32 (geneKey r)

end Spots



/-- The arity test of `parse_coords` (`isinstance(pair, (list, tuple)) and
len(pair) == 2`). -/
def isPairShape : JVal → Bool
  | .jlist l => decide (l.length = 2)
  | _ => false

/-- Conversion of one well-shaped coordinate pair: `(float(x), float(y))`,
`none` when either conversion raises or the element is not a two-element
list. -/
def pairConv : JVal → Option (Rat × Rat)
  | .jlist [a, b] =>
    match pyFloat a, pyFloat b with
    | some x, some y => some (x, y)
    | _, _ => none
  | _ => none

/-- The first element of a decoded JSON list when it is a string (used to
exhibit cells whose element strings contain apostrophes). -/
def firstElemStr (v : Option JVal) : Option String :=
  match v with
  | some (.jlist (.jstr s :: _)) => some s
  | _ => none

/-- The raw cell rendering of a one-element JSON list whose element string
(namely it + apostrophe + s) embeds a single apostrophe. -/
def itsCell : String :=
  String.mk ['[', dq, 'i', 't', apos, 's', dq, ']']

/-- The raw cell rendering of a one-element JSON list whose element string
(a + apostrophe + comma + apostrophe + b) embeds two apostrophes around a
comma. -/
def twoAposCell : String :=
  String.mk ['[', dq, 'a', apos, ',', apos, 'b', dq, ']']

namespace Ex

/-- Header of a spots TSV declaring only `spot_id`. -/
def c3cols : Spots.SpotCols := { spot_id := true }

/-- One spots row whose `spot_id` cell is not numeric. -/
def c3rows : List Spots.SpotRow := [{ spot_id := some "abc" }]

/-- Header of a spots TSV declaring `gene_id` and `gene_name`. -/
def genecols : Spots.SpotCols := { gene_id := true, gene_name := true }

/-- Gene rows whose names appear in order A, B, A, C but whose ids are the
input-supplied values 5, 7, 5, 9. -/
def c2rows : List Spots.SpotRow :=
  [{ gene_id := some "5", gene_name := some "A" },
   { gene_id := some "7", gene_name := some "B" },
   { gene_id := some "5", gene_name := some "A" },
   { gene_id := some "9", gene_name := some "C" }]

/-- Gene rows whose names appear in order A, B, A, C and whose input ids
happen to be the first-seen-sequential assignment 0, 1, 0, 2. -/
def c2rowsSeq : List Spots.SpotRow :=
  [{ gene_id := some "0", gene_name := some "A" },
   { gene_id := some "1", gene_name := some "B" },
   { gene_id := some "0", gene_name := some "A" },
   { gene_id := some "2", gene_name := some "C" }]

/-- Two gene rows sharing one gene_id with two different gene_names. -/
def c7rows : List Spots.SpotRow :=
  [{ gene_id := some "1", gene_name := some "A" },
   { gene_id := some "1", gene_name := some "B" }]

/-- Header of a spots TSV declaring only `gene_name` (a real source column
that `infer_and_cast` does not emit). -/
def c6cols : Spots.SpotCols := { gene_name := true }

/-- Five rows holding only a `gene_name` cell. -/
def c6rows : List Spots.SpotRow := List.replicate 5 { gene_name := some "G" }

/-- Header of a spots TSV declaring only `x`. -/
def xcols : Spots.SpotCols := { x := true }

/-- Five rows holding only an `x` cell. -/
def xrows : List Spots.SpotRow := List.replicate 5 { x := some "1.5" }

/-- The three-row boundary plane file of spec Scenario A: one parsable
two-point polygon, one empty list, one unparsable cell. -/
def scenA : List Bounds.BRow :=
  [{ plane_id := some 3, label := some 7, coords := some "[[1,2],[3,4]]" },
   { plane_id := some 3, label := some 8, coords := some "[]" },
   { plane_id := some 3, label := some 9, coords := some "not-json" }]

/-- A boundary plane file whose only row (plane 5) has an unusable geometry
cell, so the whole partition is filtered out. -/
def c8file : List Bounds.BRow :=
  [{ plane_id := some 5, label := some 1, coords := some "not-json" }]

/-- A boundary plane file whose row has a missing `plane_id`. -/
def badPlaneFile : List Bounds.BRow :=
  [{ plane_id := none, label := some 1, coords := some "[[1,2]]" }]

end Ex

namespace Bounds

theorem bKeptOf_cons (r : BRow) (rest : List BRow) :
    bKeptOf (r :: rest) =
      if keepRow r then mkKeptRow r :: bKeptOf rest else bKeptOf rest := by
  by_cases h : keepRow r = true <;> simp [bKeptOf, List.filter_cons, h]

theorem processRows_ok (f : List BRow) (kept : List Kept)
    (h : processRows f = .ok kept) : kept = bKeptOf f := by
  induction f generalizing kept with
  | nil =>
    simp [processRows] at h
    simp [bKeptOf, ← h]
  | cons r rest ih =>
    rw [bKeptOf_cons]
    cases hp : r.plane_id with
    | none => simp [processRows, hp] at h
    | some pid =>
      cases hl : r.label with
      | none => simp [processRows, hp, hl] at h
      | some lab =>
        by_cases hc : (parse_coords r.coords).isEmpty = true
        · have hk : keepRow r = false := by simp [keepRow, hc]
          simp only [processRows, hp, hl, hc, if_true] at h
          simp [hk, ih kept h]
        · have hk : keepRow r = true := by simp [keepRow]; simpa using hc
          have hxs : ((parse_coords r.coords).map Prod.fst).isEmpty = false := by
            cases hcc : parse_coords r.coords with
            | nil => simp [hcc] at hc
            | cons a t => simp [hcc]
          simp only [processRows, hp, hl, hc, if_false, Bool.false_eq_true, hxs] at h
          cases hrest : processRows rest with
          | error e => simp [hrest, Except.map] at h
          | ok t =>
            simp only [hrest, Except.map, Except.ok.injEq] at h
            subst h
            simp [hk, ih t hrest, mkKeptRow, hp, hl]

theorem goFiles_ok (files : List (List BRow)) :
    ∀ evs shards tp tpts evs2,
      goFiles files evs shards tp tpts = (evs2, true) →
      evs2 = evs ++ files.map (fun f => Event.shardWrite (fileShard f).url (fileShard f).rows)
           ++ [Event.manifestWrite
                ⟨tp + (files.map (fun f => (fileShard f).rows)).sum,
                 tpts + (files.map filePts).sum,
                 shards ++ files.map fileShard⟩] := by
  induction files with
  | nil =>
    intro evs shards tp tpts evs2 h
    simp [goFiles] at h
    simp [← h]
  | cons f rest ih =>
    intro evs shards tp tpts evs2 h
    cases hpr : processRows f with
    | error e => simp [goFiles, hpr] at h
    | ok kept =>
      have hk : kept = bKeptOf f := processRows_ok f kept hpr
      subst hk
      simp only [goFiles, hpr] at h
      have := ih (evs ++ [Event.shardWrite (fileShard f).url (fileShard f).rows])
        (shards ++ [fileShard f]) (tp + (fileShard f).rows) (tpts + filePts f) evs2 (by
          simpa [fileShard, filePts] using h)
      rw [this]
      simp [List.append_assoc, BManifest.mk.injEq]
      constructor
      · omega
      · omega

theorem goFiles_false (files : List (List BRow)) :
    ∀ evs shards tp tpts evs2,
      goFiles files evs shards tp tpts = (evs2, false) →
      ∃ mid, evs2 = evs ++ mid ∧ ∀ e ∈ mid, isShardEv e = true := by
  induction files with
  | nil =>
    intro evs shards tp tpts evs2 h
    simp [goFiles] at h
  | cons f rest ih =>
    intro evs shards tp tpts evs2 h
    cases hpr : processRows f with
    | error e =>
      simp only [goFiles, hpr, Prod.mk.injEq] at h
      exact ⟨[], by simp [← h.1], by simp⟩
    | ok kept =>
      simp only [goFiles, hpr] at h
      obtain ⟨mid, hmid, hall⟩ := ih _ _ _ _ _ h
      refine ⟨Event.shardWrite (shardOf kept).1.url (shardOf kept).1.rows :: mid, ?_, ?_⟩
      · simp [hmid]
      · intro e he
        cases he with
        | head => rfl
        | tail _ hmem => exact hall e hmem

end Bounds

namespace Spots

theorem uint16TryCast_len :
    ∀ cells ns, uint16TryCast cells = some ns → ns.length = cells.length := by
  intro cells
  induction cells with
  | nil => intro ns h; simp [uint16TryCast] at h; simp [← h]
  | cons c rest ih =>
    intro ns h
    cases hc : uint16Cell c with
    | none => simp [uint16TryCast, hc] at h
    | some n =>
      cases hrest : uint16TryCast rest with
      | none => simp [uint16TryCast, hc, hrest] at h
      | some t =>
        simp only [uint16TryCast, hc, hrest] at h
        simp only [Option.map, Option.some.injEq] at h
        simp [← h, ih t hrest]

theorem plan_builder_len (c : SpotCols) :
    ∀ e ∈ colPlan c, ∀ (rows : List SpotRow) cd, e.2.2 rows = .ok cd →
      colLen cd = rows.length := by
  intro e he rows cd h
  have hfloat : ∀ cells : List (Option String), castFloat cells = .ok cd →
      colLen cd = cells.length := by
    intro cells hh
    simp only [castFloat, Except.ok.injEq] at hh
    simp [← hh, colLen]
  have hfloatR : ∀ cells : List (Option String), castFloatRaise cells = .ok cd →
      colLen cd = cells.length := by
    intro cells hh
    by_cases hall : cells.all floatCellOk = true
    · simp only [castFloatRaise, hall, if_true, Except.ok.injEq] at hh
      simp [← hh, colLen]
    · simp [castFloatRaise, hall] at hh
  have hu32 : ∀ cells : List (Option String), castUint32 cells = .ok cd →
      colLen cd = cells.length := by
    intro cells hh
    by_cases hall : (cells.map toNum).all (fun o => o.isSome) = true
    · simp only [castUint32, hall, if_true, Except.ok.injEq] at hh
      simp [← hh, colLen]
    · simp [castUint32, hall] at hh
  simp only [colPlan, List.mem_cons, List.not_mem_nil, or_false] at he
  rcases he with rfl|rfl|rfl|rfl|rfl|rfl|rfl|rfl|rfl|rfl|rfl
  · exact (hfloatR _ h).trans (by simp)
  · exact (hfloatR _ h).trans (by simp)
  · exact (hfloatR _ h).trans (by simp)
  · -- plane_id
    simp only [buildPlaneId] at h
    cases hu : uint16TryCast (rows.map SpotRow.plane_id) with
    | some ns =>
      simp only [hu, Except.ok.injEq] at h
      rw [← h]
      have hl := uint16TryCast_len _ _ hu
      simpa [colLen] using hl
    | none =>
      simp only [hu, Except.ok.injEq] at h
      rw [← h]
      simp [colLen]
  · exact (hu32 _ h).trans (by simp)
  · -- parent_cell_id
    simp only [buildParentCellId, Except.ok.injEq] at h
    simp [← h, colLen]
  · exact (hu32 _ h).trans (by simp)
  · simp only [buildNeighbourArray, Except.ok.injEq] at h
    simp [← h, colLen]
  · simp only [buildNeighbourProb, Except.ok.injEq] at h
    simp [← h, colLen]
  · exact (hfloat _ h).trans (by simp)
  · exact (hfloat _ h).trans (by simp)

theorem buildCols_ok_lens (rows : List SpotRow) :
    ∀ plan lst, buildCols plan rows = .ok lst →
      (∀ e ∈ plan, ∀ cd, e.2.2 rows = .ok cd → colLen cd = rows.length) →
      ∀ p ∈ lst, colLen p.2 = rows.length := by
  intro plan
  induction plan with
  | nil =>
    intro lst h _ p hp
    simp only [buildCols] at h
    injection h with h2
    subst h2
    simp at hp
  | cons e rest ih =>
    obtain ⟨fl, nm, f⟩ := e
    intro lst h hlen p hp
    by_cases hfl : fl = true
    · subst hfl
      cases hf : f rows with
      | error err => simp [buildCols, hf] at h
      | ok cd =>
        simp only [buildCols, hf, if_true] at h
        cases hrest : buildCols rest rows with
        | error err => simp [hrest, Except.map] at h
        | ok t =>
          simp only [hrest, Except.map, Except.ok.injEq] at h
          subst h
          cases hp with
          | head =>
            exact hlen (true, nm, f) (List.mem_cons_self _ _) cd hf
          | tail _ hmem =>
            exact ih t hrest (fun e2 he2 => hlen e2 (List.mem_cons_of_mem _ he2)) p hmem
    · have hfl2 : fl = false := by revert hfl; cases fl <;> simp
      subst hfl2
      simp only [buildCols, Bool.false_eq_true, if_false] at h
      exact ih lst h (fun e2 he2 => hlen e2 (List.mem_cons_of_mem _ he2)) p hp

theorem buildCols_nil_flags (rows : List SpotRow) :
    ∀ plan, buildCols plan rows = .ok [] → ∀ e ∈ plan, e.1 = false := by
  intro plan
  induction plan with
  | nil => intro _ e he; simp at he
  | cons e0 rest ih =>
    obtain ⟨fl, nm, f⟩ := e0
    intro h e he
    by_cases hfl : fl = true
    · subst hfl
      cases hf : f rows with
      | error err => simp [buildCols, hf] at h
      | ok cd =>
        simp only [buildCols, hf, if_true] at h
        cases hrest : buildCols rest rows with
        | error err => simp [hrest, Except.map] at h
        | ok t => simp [hrest, Except.map] at h
    · have hfl2 : fl = false := by revert hfl; cases fl <;> simp
      subst hfl2
      simp only [buildCols, Bool.false_eq_true, if_false] at h
      cases he with
      | head => rfl
      | tail _ hmem => exact ih h e hmem

theorem buildCols_find (rows : List SpotRow) :
    ∀ plan lst, buildCols plan rows = .ok lst → ∀ nm,
      lst.find? (fun p => p.1 == nm) = (firstActive plan nm rows).map (fun cd => (nm, cd)) := by
  intro plan
  induction plan with
  | nil =>
    intro lst h nm
    simp only [buildCols] at h
    injection h with h2
    subst h2
    simp [firstActive]
  | cons e rest ih =>
    obtain ⟨fl, nm0, f⟩ := e
    intro lst h nm
    by_cases hfl : fl = true
    · subst hfl
      cases hf : f rows with
      | error err => simp [buildCols, hf] at h
      | ok cd =>
        simp only [buildCols, hf, if_true] at h
        cases hrest : buildCols rest rows with
        | error err => simp [hrest, Except.map] at h
        | ok t =>
          simp only [hrest, Except.map, Except.ok.injEq] at h
          subst h
          by_cases hnm : nm0 = nm
          · subst hnm
            simp [List.find?, firstActive, hf, Except.toOption]
          · have hbeq : (nm0 == nm) = false := by simp [hnm]
            simp [List.find?, hbeq, firstActive, ih t hrest nm]
    · have hfl2 : fl = false := by revert hfl; cases fl <;> simp
      subst hfl2
      simp only [buildCols, Bool.false_eq_true, if_false] at h
      simp only [firstActive, Bool.false_and, Bool.false_eq_true, if_false]
      exact ih lst h nm

theorem buildCols_ok_of (rows : List SpotRow) :
    ∀ plan, (∀ e ∈ plan, e.1 = true → (e.2.2 rows).isOk = true) →
      (buildCols plan rows).isOk = true := by
  intro plan
  induction plan with
  | nil => intro _; simp [buildCols, Except.isOk, Except.toBool]
  | cons e rest ih =>
    obtain ⟨fl, nm, f⟩ := e
    intro hall
    by_cases hfl : fl = true
    · subst hfl
      have hok := hall (true, nm, f) (List.mem_cons_self _ _) rfl
      cases hf : f rows with
      | error err => simp [hf, Except.isOk, Except.toBool] at hok
      | ok cd =>
        have hrest := ih (fun e2 he2 => hall e2 (List.mem_cons_of_mem _ he2))
        cases hr : buildCols rest rows with
        | error err => simp [hr, Except.isOk, Except.toBool] at hrest
        | ok t => simp [buildCols, hf, hr, Except.map, Except.isOk, Except.toBool]
    · have hfl2 : fl = false := by revert hfl; cases fl <;> simp
      subst hfl2
      simp only [buildCols, Bool.false_eq_true, if_false]
      exact ih (fun e2 he2 => hall e2 (List.mem_cons_of_mem _ he2))

theorem castFloat_isOk (cells : List (Option String)) : (castFloat cells).isOk = true := by
  simp [castFloat, Except.isOk, Except.toBool]

theorem buildPlaneId_isOk (rows : List SpotRow) : (buildPlaneId rows).isOk = true := by
  cases h : uint16TryCast (rows.map SpotRow.plane_id) <;>
    simp [buildPlaneId, h, Except.isOk, Except.toBool]

/-- A successful raw `astype("float32")` cast means every present cell
parsed as a float, and the stored values are the coerced cells. -/
theorem castFloatRaise_ok_all (cells : List (Option String)) (cd : ColData)
    (h : castFloatRaise cells = .ok cd) :
    cells.all floatCellOk = true ∧ cd = ColData.floatCol (cells.map toNum) := by
  by_cases hall : cells.all floatCellOk = true
  · simp only [castFloatRaise, hall, if_true, Except.ok.injEq] at h
    exact ⟨hall, h.symm⟩
  · simp [castFloatRaise, hall] at h

/-- A batch built from a header with at least one recognised column has
exactly one row per source row. -/
theorem dfLen_ok (c : SpotCols) (rows : List SpotRow) (df : SpotDF)
    (hc : somePresent c = true) (h : infer_and_cast c rows = .ok df) :
    dfLen df = rows.length := by
  have hb : buildCols (colPlan c) rows = .ok df.cols := by
    unfold infer_and_cast at h
    cases hr : buildCols (colPlan c) rows with
    | error err => simp [hr, Except.map] at h
    | ok t =>
      simp only [hr, Except.map, Except.ok.injEq] at h
      simp [← h]
  have hne : df.cols ≠ [] := by
    intro hnil
    rw [hnil] at hb
    have hflags := buildCols_nil_flags rows (colPlan c) hb
    have hx := hflags (c.x, "x", fun rows => castFloatRaise (rows.map SpotRow.x))
      (List.Mem.head _)
    have hy := hflags (c.y, "y", fun rows => castFloatRaise (rows.map SpotRow.y))
      (List.Mem.tail _ (List.Mem.head _))
    have hz := hflags (c.z, "z", fun rows => castFloatRaise (rows.map SpotRow.z))
      (List.Mem.tail _ (List.Mem.tail _ (List.Mem.head _)))
    have hpl := hflags (c.plane_id, "plane_id", buildPlaneId)
      (List.Mem.tail _ (List.Mem.tail _ (List.Mem.tail _ (List.Mem.head _))))
    have hsp := hflags (c.spot_id, "spot_id", fun rows => castUint32 (rows.map SpotRow.spot_id))
      (List.Mem.tail _ (List.Mem.tail _ (List.Mem.tail _ (List.Mem.tail _ (List.Mem.head _)))))
    have hpc := hflags (c.parent_cell_id, "parent_cell_id", buildParentCellId)
      (List.Mem.tail _ (List.Mem.tail _ (List.Mem.tail _ (List.Mem.tail _
        (List.Mem.tail _ (List.Mem.head _))))))
    have hgi := hflags (c.gene_id, "gene_id", fun rows => castUint32 (rows.map SpotRow.gene_id))
      (List.Mem.tail _ (List.Mem.tail _ (List.Mem.tail _ (List.Mem.tail _
        (List.Mem.tail _ (List.Mem.tail _ (List.Mem.head _)))))))
    have hna := hflags (c.neighbour_array, "neighbour_array", buildNeighbourArray)
      (List.Mem.tail _ (List.Mem.tail _ (List.Mem.tail _ (List.Mem.tail _
        (List.Mem.tail _ (List.Mem.tail _ (List.Mem.tail _ (List.Mem.head _))))))))
    have hnp := hflags (c.neighbour_prob, "neighbour_prob", buildNeighbourProb)
      (List.Mem.tail _ (List.Mem.tail _ (List.Mem.tail _ (List.Mem.tail _
        (List.Mem.tail _ (List.Mem.tail _ (List.Mem.tail _ (List.Mem.tail _
          (List.Mem.head _)))))))))
    have hos := hflags (c.omp_score, "omp_score", fun rows => castFloat (rows.map SpotRow.omp_score))
      (List.Mem.tail _ (List.Mem.tail _ (List.Mem.tail _ (List.Mem.tail _
        (List.Mem.tail _ (List.Mem.tail _ (List.Mem.tail _ (List.Mem.tail _
          (List.Mem.tail _ (List.Mem.head _))))))))))
    have hoi := hflags (c.omp_intensity, "omp_intensity",
        fun rows => castFloat (rows.map SpotRow.omp_intensity))
      (List.Mem.tail _ (List.Mem.tail _ (List.Mem.tail _ (List.Mem.tail _
        (List.Mem.tail _ (List.Mem.tail _ (List.Mem.tail _ (List.Mem.tail _
          (List.Mem.tail _ (List.Mem.tail _ (List.Mem.head _)))))))))))
    simp only [Prod.fst] at hx hy hz hpl hsp hpc hgi hna hnp hos hoi
    simp [somePresent, hx, hy, hz, hpl, hsp, hpc, hgi, hna, hnp, hos, hoi] at hc
  cases hcols : df.cols with
  | nil => exact absurd hcols hne
  | cons p t =>
    have hp : p ∈ df.cols := by rw [hcols]; exact List.Mem.head _
    have := buildCols_ok_lens rows (colPlan c) df.cols hb
      (fun e he cd hcd => plan_builder_len c e he rows cd hcd) p hp
    simp [dfLen, hcols, this]

theorem runChunks_ok_full (c : SpotCols) :
    ∀ chunks, (∀ ch ∈ chunks, (infer_and_cast c ch).isOk = true) →
    ∀ idx evs shards total gd,
      runChunks c chunks idx evs shards total gd =
        (evs ++ shardEvsFrom c idx chunks ++
          Event.manifestWrite (total + totalOf c chunks) (shards ++ shardListFrom c idx chunks) ::
          dictTail (finalGd c gd chunks), true) := by
  intro chunks
  induction chunks with
  | nil =>
    intro _ idx evs shards total gd
    cases gd with
    | none => simp [runChunks, shardEvsFrom, totalOf, shardListFrom, finalGd, dictTail]
    | some d =>
      by_cases hd : d.isEmpty = true <;>
        simp [runChunks, shardEvsFrom, totalOf, shardListFrom, finalGd, dictTail, hd]
  | cons ch rest ih =>
    intro hok idx evs shards total gd
    have hok1 := hok ch (List.mem_cons_self _ _)
    cases hi : infer_and_cast c ch with
    | error err => simp [hi, Except.isOk, Except.toBool] at hok1
    | ok df =>
      have hdfOf : dfOf c ch = df := by simp [Spots.dfOf, hi]
      simp only [runChunks, hi]
      rw [ih (fun ch2 h2 => hok ch2 (List.mem_cons_of_mem _ h2))]
      simp [shardEvsFrom, shardListFrom, totalOf, finalGd, stepGd, hdfOf,
        List.append_assoc, Nat.add_assoc, List.foldl]

theorem runChunks_true_ok (c : SpotCols) :
    ∀ chunks idx evs shards total gd evs2,
      runChunks c chunks idx evs shards total gd = (evs2, true) →
      ∀ ch ∈ chunks, (infer_and_cast c ch).isOk = true := by
  intro chunks
  induction chunks with
  | nil => intro idx evs shards total gd evs2 _ ch hch; simp at hch
  | cons ch0 rest ih =>
    intro idx evs shards total gd evs2 h ch hch
    cases hi : infer_and_cast c ch0 with
    | error err =>
      simp only [runChunks, hi, Prod.mk.injEq] at h
      exact absurd h.2 (by simp)
    | ok df =>
      simp only [runChunks, hi] at h
      cases hch with
      | head => simp [hi, Except.isOk, Except.toBool]
      | tail _ hmem => exact ih _ _ _ _ _ _ h ch hmem

theorem runChunks_false (c : SpotCols) :
    ∀ chunks idx evs shards total gd evs2,
      runChunks c chunks idx evs shards total gd = (evs2, false) →
      ∃ mid, evs2 = evs ++ mid ∧ ∀ e ∈ mid, isShardEv e = true := by
  intro chunks
  induction chunks with
  | nil =>
    intro idx evs shards total gd evs2 h
    cases gd with
    | none => simp [runChunks] at h
    | some d => by_cases hd : d.isEmpty = true <;> simp [runChunks, hd] at h
  | cons ch0 rest ih =>
    intro idx evs shards total gd evs2 h
    cases hi : infer_and_cast c ch0 with
    | error err =>
      simp only [runChunks, hi, Prod.mk.injEq] at h
      exact ⟨[], by simp [← h.1], by simp⟩
    | ok df =>
      simp only [runChunks, hi] at h
      obtain ⟨mid, hmid, hall⟩ := ih _ _ _ _ _ _ h
      refine ⟨Event.shardWrite (spotsShardName idx) df :: mid, by simp [hmid], ?_⟩
      intro e he
      cases he with
      | head => rfl
      | tail _ hmem => exact hall e hmem

theorem shardEvsFrom_all_shard (c : SpotCols) :
    ∀ chunks idx, ∀ e ∈ shardEvsFrom c idx chunks, isShardEv e = true := by
  intro chunks
  induction chunks with
  | nil => intro idx e he; simp [shardEvsFrom] at he
  | cons ch rest ih =>
    intro idx e he
    cases he with
    | head => rfl
    | tail _ hmem => exact ih (idx + 1) e hmem

theorem dictTail_all_dict (gd : Option (List (Int × String))) :
    ∀ e ∈ dictTail gd, isDictEv e = true := by
  cases gd with
  | none => intro e he; simp [dictTail] at he
  | some d =>
    by_cases hd : d.isEmpty = true <;> intro e he <;> simp [dictTail, hd] at he
    simp [he, isDictEv]

end Spots

theorem chunksOf_join (k : Nat) (hk : 0 < k) :
    ∀ (n : Nat) (l : List α), l.length ≤ n → (chunksOf k l).flatten = l := by
  intro n
  induction n with
  | zero =>
    intro l hl
    have hnil : l = [] := List.eq_nil_of_length_eq_zero (Nat.le_zero.mp hl)
    subst hnil
    simp [chunksOf_nil]
  | succ n ihn =>
    intro l hl
    cases l with
    | nil => simp [chunksOf_nil]
    | cons x xs =>
      rw [chunksOf_cons k hk x xs]
      have hdrop : ((x :: xs).drop k).length ≤ n := by
        simp only [List.length_drop, List.length_cons]
        simp only [List.length_cons] at hl
        omega
      simp only [List.flatten_cons]
      rw [ihn _ hdrop]
      exact List.take_append_drop k (x :: xs)

theorem chunkLens_cons (k n : Nat) (hk : 0 < k) (hn : 0 < n) :
    Spots.chunkLens k n = min k n :: Spots.chunkLens k (n - k) := by
  unfold Spots.chunkLens
  have hne : ¬ n = 0 := by omega
  rw [if_neg hne]
  by_cases hnk : n ≤ k
  · have h1 : (n - 1) / k = 0 := Nat.div_eq_of_lt (by omega)
    have h2 : n - k = 0 := by omega
    rw [h1, h2]
    simp [Nat.min_eq_right hnk]
  · have hkle : k ≤ n - 1 := by omega
    have hdiv : (n - 1) / k = (n - 1 - k) / k + 1 := Nat.div_eq_sub_div hk hkle
    have hnk0 : ¬ n - k = 0 := by omega
    have hmin : min k n = k := Nat.min_eq_left (by omega)
    have harg : n - 1 - k = n - k - 1 := by omega
    rw [hdiv, hmin, harg, List.replicate_succ, if_neg hnk0]
    simp only [List.cons_append, List.cons.injEq, true_and]
    simp only [List.append_cancel_left_eq, List.cons.injEq, and_true]
    rw [Nat.mul_succ, ← Nat.sub_sub, Nat.sub_right_comm]

theorem chunksOf_map_length (k : Nat) (hk : 0 < k) :
    ∀ (n : Nat) (l : List α), l.length ≤ n →
      (chunksOf k l).map List.length = Spots.chunkLens k l.length := by
  intro n
  induction n with
  | zero =>
    intro l hl
    have hnil : l = [] := List.eq_nil_of_length_eq_zero (Nat.le_zero.mp hl)
    subst hnil
    simp [chunksOf_nil, Spots.chunkLens]
  | succ n ihn =>
    intro l hl
    cases l with
    | nil => simp [chunksOf_nil, Spots.chunkLens]
    | cons x xs =>
      rw [chunksOf_cons k hk x xs]
      have hdrop : ((x :: xs).drop k).length ≤ n := by
        simp only [List.length_drop, List.length_cons]
        simp only [List.length_cons] at hl
        omega
      simp only [List.map_cons]
      rw [ihn _ hdrop]
      rw [chunkLens_cons k (x :: xs).length hk (by simp)]
      simp [List.length_take, List.length_drop]

namespace Spots

theorem alookup_cons (p : Int × String) (rest : List (Int × String)) (k2 : Int) :
    alookup k2 (p :: rest) = if p.1 = k2 then some p.2 else alookup k2 rest := rfl

theorem getLast?_cons_ne_none (x : α) (t : List α) : (x :: t).getLast? ≠ none := by
  induction t generalizing x with
  | nil => simp
  | cons y r ih => rw [List.getLast?_cons_cons]; exact ih y

theorem alookup_map_replace_ne (k : Int) (v : String) (k2 : Int) (hne : k2 ≠ k) :
    ∀ d : List (Int × String),
      alookup k2 (d.map (fun p => if p.1 = k then (k, v) else p)) = alookup k2 d := by
  intro d
  induction d with
  | nil => simp [alookup]
  | cons p rest ih =>
    by_cases hp : p.1 = k
    · have hk2 : ¬ (k = k2) := fun h => hne h.symm
      have hpk2 : ¬ (p.1 = k2) := by rw [hp]; exact hk2
      simp [alookup_cons, hp, hk2, hpk2, ih]
    · have hf : (if p.1 = k then (k, v) else p) = p := if_neg hp
      simp only [List.map_cons, hf]
      by_cases hpk2 : p.1 = k2 <;> simp [alookup_cons, hpk2, ih]

theorem alookup_dictUpdate (k : Int) (v : String) (k2 : Int) :
    ∀ d : List (Int × String),
      alookup k2 (dictUpdate d k v) = if k2 = k then some v else alookup k2 d := by
  intro d
  induction d with
  | nil =>
    by_cases h : k2 = k
    · simp [dictUpdate, alookup_cons, alookup, h]
    · have h2 : ¬ (k = k2) := fun hh => h hh.symm
      simp [dictUpdate, alookup_cons, alookup, h, h2]
  | cons p rest ih =>
    by_cases hp : p.1 = k
    · have hany : (p :: rest).any (fun q => q.1 = k) = true := by simp [hp]
      simp only [dictUpdate, hany, if_true, List.map_cons, hp, if_true]
      by_cases h2 : k2 = k
      · subst h2
        simp [alookup_cons]
      · have h3 : ¬ (k = k2) := fun hh => h2 hh.symm
        have hpk2 : ¬ (p.1 = k2) := by rw [hp]; exact h3
        simp [alookup_cons, h2, h3, hpk2, alookup_map_replace_ne k v k2 h2 rest]
    · by_cases hany : rest.any (fun q => q.1 = k) = true
      · have hany2 : (p :: rest).any (fun q => q.1 = k) = true := by
          simp only [List.any_cons, Bool.or_eq_true]
          exact Or.inr hany
        have hud : dictUpdate rest k v = rest.map (fun q => if q.1 = k then (k, v) else q) := by
          simp [dictUpdate, hany]
        simp only [dictUpdate, hany2, if_true, List.map_cons, hp, if_false]
        rw [alookup_cons, alookup_cons, ← hud, ih]
        by_cases hpk2 : p.1 = k2
        · have h2 : ¬ (k2 = k) := by rw [← hpk2]; exact fun h => hp h
          simp [hpk2, h2]
        · simp [hpk2]
      · have hany3 : rest.any (fun q => q.1 = k) = false := by
          revert hany; cases rest.any (fun q => q.1 = k) <;> simp
        have hany2 : (p :: rest).any (fun q => q.1 = k) = false := by
          simp [List.any_cons, hp, hany3]
        have hud : dictUpdate rest k v = rest ++ [(k, v)] := by
          simp [dictUpdate, hany]
        simp only [dictUpdate, hany2, Bool.false_eq_true, if_false, List.cons_append]
        rw [alookup_cons, alookup_cons, ← hud, ih]
        by_cases hpk2 : p.1 = k2
        · have h2 : ¬ (k2 = k) := by rw [← hpk2]; exact fun h => hp h
          simp [hpk2, h2]
        · simp [hpk2]

theorem lastPairValue_cons (p : Int × String) (pairs : List (Int × String)) (k2 : Int) :
    lastPairValue (p :: pairs) k2 =
      match lastPairValue pairs k2 with
      | some v => some v
      | none => if p.1 = k2 then some p.2 else none := by
  by_cases hp : p.1 = k2
  · cases hF : pairs.filter (fun q => decide (q.1 = k2)) with
    | nil => simp [lastPairValue, List.filter_cons, hp, hF]
    | cons x t =>
      cases hL : (x :: t).getLast? with
      | none => exact absurd hL (getLast?_cons_ne_none x t)
      | some q =>
        simp [lastPairValue, List.filter_cons, hp, hF, List.getLast?_cons_cons, hL]
  · cases hL : (pairs.filter (fun q => decide (q.1 = k2))).getLast? with
    | none => simp [lastPairValue, List.filter_cons, hp, hL]
    | some q => simp [lastPairValue, List.filter_cons, hp, hL]

theorem alookup_dictInsertAll :
    ∀ (pairs d : List (Int × String)) (k2 : Int),
      alookup k2 (dictInsertAll d pairs) =
        match lastPairValue pairs k2 with
        | some v => some v
        | none => alookup k2 d := by
  intro pairs
  induction pairs with
  | nil => intro d k2; simp [dictInsertAll, lastPairValue]
  | cons p rest ih =>
    intro d k2
    have hstep : dictInsertAll d (p :: rest) = dictInsertAll (dictUpdate d p.1 p.2) rest := by
      simp [dictInsertAll]
    rw [hstep, ih, lastPairValue_cons, alookup_dictUpdate]
    cases lastPairValue rest k2 with
    | some v => simp
    | none =>
      by_cases h2 : k2 = p.1
      · simp [h2]
      · have h3 : ¬ (p.1 = k2) := fun h => h2 h.symm
        simp [h2, h3]

end Spots

namespace Spots

theorem keys_map_replace (k : Int) (v : String) :
    ∀ d : List (Int × String),
      (d.map (fun p => if p.1 = k then (k, v) else p)).map Prod.fst = d.map Prod.fst := by
  intro d
  induction d with
  | nil => simp
  | cons p rest ih =>
    by_cases hp : p.1 = k <;> simp [hp, ih]

theorem any_eq_false_not_mem_keys (k : Int) :
    ∀ d : List (Int × String), d.any (fun p => p.1 = k) = false → k ∉ d.map Prod.fst := by
  intro d
  induction d with
  | nil => simp
  | cons p rest ih =>
    intro h
    simp only [List.any_cons, Bool.or_eq_false_iff] at h
    simp only [List.map_cons, List.mem_cons]
    intro hmem
    cases hmem with
    | inl he => exact absurd he.symm (by simpa using h.1)
    | inr hm => exact absurd hm (ih h.2)

theorem nodupKeys_dictUpdate (k : Int) (v : String) (d : List (Int × String))
    (h : NodupKeys d) : NodupKeys (dictUpdate d k v) := by
  unfold NodupKeys dictUpdate at *
  by_cases hany : d.any (fun p => p.1 = k) = true
  · simp only [hany, if_true]
    rw [keys_map_replace]
    exact h
  · have hany2 : d.any (fun p => p.1 = k) = false := by
      revert hany; cases d.any (fun p => p.1 = k) <;> simp
    simp only [hany2, Bool.false_eq_true, if_false, List.map_append, List.map_cons,
      List.map_nil]
    rw [List.nodup_append]
    refine ⟨h, by simp, ?_⟩
    intro a ha hb
    simp only [List.mem_cons, List.not_mem_nil, or_false] at hb
    rw [hb] at ha
    exact any_eq_false_not_mem_keys k d hany2 ha

theorem nodupKeys_dictInsertAll :
    ∀ (pairs d : List (Int × String)), NodupKeys d → NodupKeys (dictInsertAll d pairs) := by
  intro pairs
  induction pairs with
  | nil => intro d h; simpa [dictInsertAll] using h
  | cons p rest ih =>
    intro d h
    have hstep : dictInsertAll d (p :: rest) = dictInsertAll (dictUpdate d p.1 p.2) rest := by
      simp [dictInsertAll]
    rw [hstep]
    exact ih _ (nodupKeys_dictUpdate p.1 p.2 d h)

theorem dictUpdate_ne_nil (d : List (Int × String)) (k : Int) (v : String) :
    dictUpdate d k v ≠ [] := by
  unfold dictUpdate
  cases d with
  | nil => simp
  | cons p rest =>
    by_cases hany : (p :: rest).any (fun q => q.1 = k) = true
    · simp [hany]
    · have h2 : (p :: rest).any (fun q => q.1 = k) = false := by
        revert hany; cases (p :: rest).any (fun q => q.1 = k) <;> simp
      simp [h2]

theorem dictInsertAll_ne_nil :
    ∀ (pairs d : List (Int × String)), d ≠ [] ∨ pairs ≠ [] → dictInsertAll d pairs ≠ [] := by
  intro pairs
  induction pairs with
  | nil =>
    intro d h
    simp only [dictInsertAll, List.foldl_nil]
    rcases h with h | h
    · exact h
    · exact absurd rfl h
  | cons p rest ih =>
    intro d _
    have hstep : dictInsertAll d (p :: rest) = dictInsertAll (dictUpdate d p.1 p.2) rest := by
      simp [dictInsertAll]
    rw [hstep]
    exact ih _ (Or.inl (dictUpdate_ne_nil d p.1 p.2))

theorem mem_insertSorted (p : Int × String) :
    ∀ (l : List (Int × String)) (q : Int × String),
      q ∈ insertSorted p l ↔ q = p ∨ q ∈ l := by
  intro l
  induction l with
  | nil => intro q; simp [insertSorted]
  | cons x rest ih =>
    intro q
    by_cases h : p.1 ≤ x.1
    · simp only [insertSorted, h, if_true, List.mem_cons]
      try tauto
    · simp only [insertSorted, h, if_false, List.mem_cons, ih]
      try tauto

theorem keys_perm_insertSorted (p : Int × String) :
    ∀ l : List (Int × String), (insertSorted p l).Perm (p :: l) := by
  intro l
  induction l with
  | nil => simp [insertSorted]
  | cons x rest ih =>
    by_cases h : p.1 ≤ x.1
    · simp [insertSorted, h]
    · simp only [insertSorted, h, if_false]
      exact (ih.cons x).trans (List.Perm.swap p x rest)

theorem perm_sortByKey :
    ∀ d : List (Int × String), (sortByKey d).Perm d := by
  intro d
  induction d with
  | nil => simp [sortByKey]
  | cons p rest ih =>
    have hs : sortByKey (p :: rest) = insertSorted p (sortByKey rest) := by
      simp [sortByKey]
    rw [hs]
    exact (keys_perm_insertSorted p (sortByKey rest)).trans (ih.cons p)

theorem sorted_insertSorted (p : Int × String) :
    ∀ l : List (Int × String),
      List.Pairwise (fun a b : Int × String => a.1 ≤ b.1) l →
      List.Pairwise (fun a b : Int × String => a.1 ≤ b.1) (insertSorted p l) := by
  intro l
  induction l with
  | nil => intro _; simp [insertSorted]
  | cons x rest ih =>
    intro h
    rw [List.pairwise_cons] at h
    by_cases hle : p.1 ≤ x.1
    · simp only [insertSorted, hle, if_true]
      rw [List.pairwise_cons]
      refine ⟨?_, by rw [List.pairwise_cons]; exact h⟩
      intro b hb
      cases hb with
      | head => exact hle
      | tail _ hmem => exact le_trans hle (h.1 b hmem)
    · simp only [insertSorted, hle, if_false]
      rw [List.pairwise_cons]
      refine ⟨?_, ih h.2⟩
      intro b hb
      rw [mem_insertSorted] at hb
      cases hb with
      | inl he => subst he; omega
      | inr hmem => exact h.1 b hmem

theorem sorted_sortByKey (d : List (Int × String)) :
    List.Pairwise (fun a b : Int × String => a.1 ≤ b.1) (sortByKey d) := by
  induction d with
  | nil => simp [sortByKey]
  | cons p rest ih =>
    have hs : sortByKey (p :: rest) = insertSorted p (sortByKey rest) := by
      simp [sortByKey]
    rw [hs]
    exact sorted_insertSorted p (sortByKey rest) ih

theorem nodupKeys_sortByKey (d : List (Int × String)) (h : NodupKeys d) :
    NodupKeys (sortByKey d) := by
  unfold NodupKeys at *
  exact (((perm_sortByKey d).map Prod.fst).nodup_iff).mpr h

theorem alookup_some_mem :
    ∀ (l : List (Int × String)) (k : Int) (v : String),
      alookup k l = some v → (k, v) ∈ l := by
  intro l
  induction l with
  | nil => intro k v h; simp [alookup] at h
  | cons p rest ih =>
    intro k v h
    rw [alookup_cons] at h
    by_cases hp : p.1 = k
    · simp only [hp, if_true, Option.some.injEq] at h
      subst h
      rw [← hp]
      exact List.Mem.head _
    · simp only [hp, if_false] at h
      exact List.Mem.tail _ (ih k v h)

theorem mem_alookup :
    ∀ (l : List (Int × String)) (k : Int) (v : String),
      NodupKeys l → (k, v) ∈ l → alookup k l = some v := by
  intro l
  induction l with
  | nil => intro k v _ h; simp at h
  | cons p rest ih =>
    intro k v hnd hm
    unfold NodupKeys at hnd
    rw [List.map_cons, List.nodup_cons] at hnd
    cases hm with
    | head => rw [alookup_cons]; simp
    | tail _ hmem =>
      rw [alookup_cons]
      by_cases hp : p.1 = k
      · exfalso
        apply hnd.1
        rw [hp]
        exact List.mem_map_of_mem Prod.fst hmem
      · simp only [hp, if_false]
        exact ih k v hnd.2 hmem

theorem alookup_none_not_mem_keys :
    ∀ (l : List (Int × String)) (k : Int),
      alookup k l = none ↔ k ∉ l.map Prod.fst := by
  intro l
  induction l with
  | nil => intro k; simp [alookup]
  | cons p rest ih =>
    intro k
    rw [alookup_cons, List.map_cons]
    by_cases hp : p.1 = k
    · simp [hp]
    · rw [if_neg hp]
      constructor
      · intro h hmem
        rw [List.mem_cons] at hmem
        cases hmem with
        | inl he => exact hp he.symm
        | inr hm => exact ((ih k).mp h) hm
      · intro h
        rw [ih k]
        intro hm
        exact h (List.mem_cons_of_mem _ hm)

theorem alookup_sortByKey (d : List (Int × String)) (hnd : NodupKeys d) (k : Int) :
    alookup k (sortByKey d) = alookup k d := by
  cases h : alookup k d with
  | none =>
    rw [alookup_none_not_mem_keys] at h
    rw [(alookup_none_not_mem_keys (sortByKey d) k).mpr]
    intro hmem
    exact h (((perm_sortByKey d).map Prod.fst).mem_iff.mp hmem)
  | some v =>
    exact mem_alookup (sortByKey d) k v (nodupKeys_sortByKey d hnd)
      ((perm_sortByKey d).mem_iff.mpr (alookup_some_mem d k v h))

end Spots

namespace Spots

theorem finalGd_some (c : SpotCols) (hg : c.gene_id = true) (hn : c.gene_name = true) :
    ∀ (chunks : List (List SpotRow)) (d : List (Int × String)),
      finalGd c (some d) chunks = some (dictInsertAll d (genePairs chunks.flatten)) := by
  intro chunks
  induction chunks with
  | nil => intro d; simp [finalGd, genePairs, dictInsertAll]
  | cons ch rest ih =>
    intro d
    have hstep : finalGd c (some d) (ch :: rest) = finalGd c (stepGd c (some d) ch) rest := by
      simp [finalGd]
    rw [hstep]
    have hg2 : stepGd c (some d) ch = some (dictInsertAll d (genePairs ch)) := by
      simp [stepGd, hg, hn]
    rw [hg2, ih]
    have happ : genePairs (ch :: rest).flatten = genePairs ch ++ genePairs rest.flatten := by
      simp [genePairs]
    rw [happ]
    have : dictInsertAll d (genePairs ch ++ genePairs rest.flatten) =
        dictInsertAll (dictInsertAll d (genePairs ch)) (genePairs rest.flatten) := by
      simp [dictInsertAll, List.foldl_append]
    rw [this]

theorem finalGd_none (c : SpotCols) (hg : c.gene_id = true) (hn : c.gene_name = true) :
    ∀ chunks : List (List SpotRow), chunks ≠ [] →
      finalGd c none chunks = some (dictInsertAll [] (genePairs chunks.flatten)) := by
  intro chunks hne
  cases chunks with
  | nil => exact absurd rfl hne
  | cons ch rest =>
    have hstep : finalGd c none (ch :: rest) = finalGd c (stepGd c none ch) rest := by
      simp [finalGd]
    rw [hstep]
    have hg2 : stepGd c none ch = some (dictInsertAll [] (genePairs ch)) := by
      simp [stepGd, hg, hn]
    rw [hg2, finalGd_some c hg hn]
    have happ : genePairs (ch :: rest).flatten = genePairs ch ++ genePairs rest.flatten := by
      simp [genePairs]
    rw [happ]
    have : dictInsertAll [] (genePairs ch ++ genePairs rest.flatten) =
        dictInsertAll (dictInsertAll [] (genePairs ch)) (genePairs rest.flatten) := by
      simp [dictInsertAll, List.foldl_append]
    rw [this]

/-- Extract-manifest helper over shard events. -/
theorem manifest_filterMap_shardEvs (c : SpotCols) :
    ∀ (chunks : List (List SpotRow)) (idx : Nat),
      (shardEvsFrom c idx chunks).filterMap (fun e =>
        match e with
        | Event.manifestWrite t sh => some (t, sh)
        | _ => none) = [] := by
  intro chunks
  induction chunks with
  | nil => intro idx; simp [shardEvsFrom]
  | cons ch rest ih => intro idx; simp [shardEvsFrom, List.filterMap_cons, ih]

theorem dict_filterMap_shardEvs (c : SpotCols) :
    ∀ (chunks : List (List SpotRow)) (idx : Nat),
      (shardEvsFrom c idx chunks).filterMap (fun e =>
        match e with
        | Event.dictWrite d => some d
        | _ => none) = [] := by
  intro chunks
  induction chunks with
  | nil => intro idx; simp [shardEvsFrom]
  | cons ch rest ih => intro idx; simp [shardEvsFrom, List.filterMap_cons, ih]

theorem shardDfs_shardEvs (c : SpotCols) :
    ∀ (chunks : List (List SpotRow)) (idx : Nat) (tail : List Event),
      shardDfs (shardEvsFrom c idx chunks ++ tail) =
        chunks.map (dfOf c) ++ shardDfs tail := by
  intro chunks
  induction chunks with
  | nil => intro idx tail; simp [shardEvsFrom]
  | cons ch rest ih =>
    intro idx tail
    have hsplit : shardEvsFrom c idx (ch :: rest) ++ tail =
        Event.shardWrite (spotsShardName idx) (dfOf c ch) ::
          (shardEvsFrom c (idx + 1) rest ++ tail) := by
      simp [shardEvsFrom]
    rw [hsplit]
    show dfOf c ch :: shardDfs (shardEvsFrom c (idx + 1) rest ++ tail) =
      (dfOf c ch :: List.map (dfOf c) rest) ++ shardDfs tail
    rw [ih (idx + 1) tail]
    simp

/-- The successful-run trace of the spots converter. -/
theorem runSpots_ok_trace (c : SpotCols) (rows : List SpotRow) (k : Nat) (hk : ¬ k = 0)
    (hok : ∀ ch ∈ chunksOf k rows, (infer_and_cast c ch).isOk = true) :
    runSpots c rows k =
      (shardEvsFrom c 0 (chunksOf k rows) ++
        Event.manifestWrite (totalOf c (chunksOf k rows)) (shardListFrom c 0 (chunksOf k rows)) ::
        dictTail (finalGd c none (chunksOf k rows)), true) := by
  rw [runSpots, if_neg hk, runChunks_ok_full c (chunksOf k rows) hok 0 [] [] 0 none]
  simp

theorem runSpots_true_of_ok (c : SpotCols) (rows : List SpotRow) (k : Nat) (hk : ¬ k = 0)
    (hok : ∀ ch ∈ chunksOf k rows, (infer_and_cast c ch).isOk = true) :
    (runSpots c rows k).2 = true := by
  rw [runSpots_ok_trace c rows k hk hok]

theorem runSpots_manifestOf (c : SpotCols) (rows : List SpotRow) (k : Nat) (hk : ¬ k = 0)
    (hok : ∀ ch ∈ chunksOf k rows, (infer_and_cast c ch).isOk = true) :
    manifestOf (runSpots c rows k).1 =
      some (totalOf c (chunksOf k rows), shardListFrom c 0 (chunksOf k rows)) := by
  rw [runSpots_ok_trace c rows k hk hok]
  unfold manifestOf
  rw [List.filterMap_append, manifest_filterMap_shardEvs]
  cases hgd : finalGd c none (chunksOf k rows) with
  | none => simp [dictTail]
  | some d =>
    by_cases hd : d.isEmpty = true <;> simp [dictTail, hd, List.filterMap_cons]

theorem runSpots_dictOf (c : SpotCols) (rows : List SpotRow) (k : Nat) (hk : ¬ k = 0)
    (hok : ∀ ch ∈ chunksOf k rows, (infer_and_cast c ch).isOk = true) :
    dictOf (runSpots c rows k).1 =
      match finalGd c none (chunksOf k rows) with
      | some d => if d.isEmpty then none else some (sortByKey d)
      | none => none := by
  rw [runSpots_ok_trace c rows k hk hok]
  unfold dictOf
  rw [List.filterMap_append, dict_filterMap_shardEvs]
  cases hgd : finalGd c none (chunksOf k rows) with
  | none => simp [dictTail]
  | some d =>
    by_cases hd : d.isEmpty = true <;> simp [dictTail, hd, List.filterMap_cons]

theorem runSpots_shardDfs (c : SpotCols) (rows : List SpotRow) (k : Nat) (hk : ¬ k = 0)
    (hok : ∀ ch ∈ chunksOf k rows, (infer_and_cast c ch).isOk = true) :
    shardDfs (runSpots c rows k).1 = (chunksOf k rows).map (dfOf c) := by
  rw [runSpots_ok_trace c rows k hk hok]
  rw [shardDfs_shardEvs]
  cases hgd : finalGd c none (chunksOf k rows) with
  | none => simp [dictTail, shardDfs, List.filterMap_cons]
  | some d =>
    by_cases hd : d.isEmpty = true <;>
      simp [dictTail, hd, shardDfs, List.filterMap_cons]

theorem shardListFrom_rows (c : SpotCols) :
    ∀ (chunks : List (List SpotRow)) (idx : Nat),
      (shardListFrom c idx chunks).map Prod.snd = chunks.map (fun ch => dfLen (dfOf c ch)) := by
  intro chunks
  induction chunks with
  | nil => intro idx; simp [shardListFrom]
  | cons ch rest ih => intro idx; simp [shardListFrom, ih]

theorem shardListFrom_names (c : SpotCols) :
    ∀ (chunks : List (List SpotRow)) (idx : Nat),
      (shardListFrom c idx chunks).map Prod.fst =
        (List.range chunks.length).map (fun j => spotsShardName (idx + j)) := by
  intro chunks
  induction chunks with
  | nil => intro idx; simp [shardListFrom]
  | cons ch rest ih =>
    intro idx
    have h1 : (shardListFrom c idx (ch :: rest)).map Prod.fst =
        spotsShardName idx :: (shardListFrom c (idx + 1) rest).map Prod.fst := by
      simp [shardListFrom]
    rw [h1, ih (idx + 1)]
    have h2 : (List.range (ch :: rest).length).map (fun j => spotsShardName (idx + j)) =
        spotsShardName idx ::
          (List.range rest.length).map (fun j => spotsShardName (idx + 1 + j)) := by
      rw [List.length_cons, List.range_succ_eq_map]
      simp only [List.map_cons, List.map_map, Nat.add_zero]
      congr 1
      apply List.map_congr_left
      intro j _
      simp only [Function.comp]
      congr 1
      omega
    rw [h2]

theorem totalOf_eq_length (c : SpotCols) (rows : List SpotRow) (k : Nat) (hk : 0 < k)
    (hc : somePresent c = true)
    (hok : ∀ ch ∈ chunksOf k rows, (infer_and_cast c ch).isOk = true) :
    totalOf c (chunksOf k rows) = rows.length := by
  unfold totalOf
  have hmap : (chunksOf k rows).map (fun ch => dfLen (dfOf c ch)) =
      (chunksOf k rows).map List.length := by
    apply List.map_congr_left
    intro ch hch
    have hok1 := hok ch hch
    cases hi : infer_and_cast c ch with
    | error err => simp [hi, Except.isOk, Except.toBool] at hok1
    | ok df =>
      have : dfOf c ch = df := by simp [Spots.dfOf, hi]
      rw [this]
      exact dfLen_ok c ch df hc hi
  rw [hmap]
  rw [← List.length_flatten]
  rw [chunksOf_join k hk rows.length rows (le_refl _)]

end Spots

namespace Spots

theorem buildCols_ok_builders (rows : List SpotRow) :
    ∀ plan lst, buildCols plan rows = .ok lst →
      ∀ e ∈ plan, e.1 = true → (e.2.2 rows).isOk = true := by
  intro plan
  induction plan with
  | nil => intro lst _ e he; simp at he
  | cons e0 rest ih =>
    obtain ⟨fl, nm, f⟩ := e0
    intro lst h e he hfl
    by_cases hfl0 : fl = true
    · subst hfl0
      cases hf : f rows with
      | error err => simp [buildCols, hf] at h
      | ok cd =>
        simp only [buildCols, hf, if_true] at h
        cases hrest : buildCols rest rows with
        | error err => simp [hrest, Except.map] at h
        | ok t =>
          cases he with
          | head => simp [hf, Except.isOk, Except.toBool]
          | tail _ hmem => exact ih t hrest e hmem hfl
    · have hfl2 : fl = false := by revert hfl0; cases fl <;> simp
      subst hfl2
      simp only [buildCols, Bool.false_eq_true, if_false] at h
      cases he with
      | head => simp at hfl
      | tail _ hmem => exact ih lst h e hmem hfl

theorem infer_cols (c : SpotCols) (rows : List SpotRow) (df : SpotDF)
    (h : infer_and_cast c rows = .ok df) :
    buildCols (colPlan c) rows = .ok df.cols := by
  unfold infer_and_cast at h
  cases hr : buildCols (colPlan c) rows with
  | error err => simp [hr, Except.map] at h
  | ok t =>
    simp only [hr, Except.map, Except.ok.injEq] at h
    simp [← h]

theorem dfCol_infer (c : SpotCols) (rows : List SpotRow) (df : SpotDF)
    (h : infer_and_cast c rows = .ok df) (nm : String) :
    dfCol df nm = firstActive (colPlan c) nm rows := by
  unfold dfCol
  rw [buildCols_find rows (colPlan c) df.cols (infer_cols c rows df h) nm]
  cases firstActive (colPlan c) nm rows <;> simp

theorem firstActive_gene_id (c : SpotCols) (rows : List SpotRow) (hg : c.gene_id = true) :
    firstActive (colPlan c) "gene_id" rows =
      (castUint32 (rows.map SpotRow.gene_id)).toOption := by
  simp +decide [colPlan, firstActive, hg]

theorem firstActive_parent (c : SpotCols) (rows : List SpotRow)
    (hp : c.parent_cell_id = true) :
    firstActive (colPlan c) "parent_cell_id" rows =
      some (ColData.int32Col (rows.map parentVal)) := by
  simp +decide [colPlan, firstActive, hp, buildParentCellId, Except.toOption, parentVal]

theorem firstActive_omp_score (c : SpotCols) (rows : List SpotRow)
    (hp : c.omp_score = true) :
    firstActive (colPlan c) "omp_score" rows =
      some (ColData.floatCol ((rows.map SpotRow.omp_score).map toNum)) := by
  simp +decide [colPlan, firstActive, hp, castFloat, Except.toOption]

theorem castUint32_ok_all (cells : List (Option String)) (cd : ColData)
    (h : castUint32 cells = .ok cd) :
    (cells.map toNum).all (fun o => o.isSome) = true ∧
      cd = ColData.uint32Col ((cells.map toNum).map (fun o => wrapU32 (ratTrunc (o.getD 0)))) := by
  by_cases hall : (cells.map toNum).all (fun o => o.isSome) = true
  · simp only [castUint32, hall, if_true, Except.ok.injEq] at h
    exact ⟨hall, h.symm⟩
  · simp [castUint32, hall] at h

theorem geneCol_of_ok (c : SpotCols) (rows : List SpotRow) (df : SpotDF)
    (hg : c.gene_id = true) (h : infer_and_cast c rows = .ok df) :
    dfCol df "gene_id" = some (ColData.uint32Col (rows.map geneVal)) ∧
      ∀ r ∈ rows, (toNum r.gene_id).isSome = true := by
  have hmem : (c.gene_id, "gene_id", fun rows => castUint32 (rows.map SpotRow.gene_id)) ∈
      colPlan c :=
    List.Mem.tail _ (List.Mem.tail _ (List.Mem.tail _ (List.Mem.tail _
      (List.Mem.tail _ (List.Mem.tail _ (List.Mem.head _))))))
  have hok := buildCols_ok_builders rows (colPlan c) df.cols (infer_cols c rows df h)
    _ hmem (by simpa using hg)
  cases hcast : castUint32 (rows.map SpotRow.gene_id) with
  | error err => simp [hcast, Except.isOk, Except.toBool] at hok
  | ok cd =>
    obtain ⟨hall, hcd⟩ := castUint32_ok_all _ _ hcast
    constructor
    · rw [dfCol_infer c rows df h, firstActive_gene_id c rows hg, hcast]
      simp only [Except.toOption, hcd]
      congr 1
      congr 1
      rw [List.map_map, List.map_map]
      apply List.map_congr_left
      intro r _
      simp [Function.comp, geneVal, geneKey]
    · intro r hr
      rw [List.all_eq_true] at hall
      exact hall (toNum r.gene_id) (List.mem_map_of_mem _ (List.mem_map_of_mem _ hr))

theorem infer_error_bad_spot_id (c : SpotCols) (rows : List SpotRow)
    (hs : c.spot_id = true) (r0 : SpotRow) (hr0 : r0 ∈ rows)
    (hbad : toNum r0.spot_id = none) :
    (infer_and_cast c rows).isOk = false := by
  cases hi : infer_and_cast c rows with
  | error err => simp [Except.isOk, Except.toBool]
  | ok df =>
    exfalso
    have hmem : (c.spot_id, "spot_id", fun rows => castUint32 (rows.map SpotRow.spot_id)) ∈
        colPlan c :=
      List.Mem.tail _ (List.Mem.tail _ (List.Mem.tail _ (List.Mem.tail _ (List.Mem.head _))))
    have hok := buildCols_ok_builders rows (colPlan c) df.cols (infer_cols c rows df hi)
      _ hmem (by simpa using hs)
    cases hcast : castUint32 (rows.map SpotRow.spot_id) with
    | error err => simp [hcast, Except.isOk, Except.toBool] at hok
    | ok cd =>
      obtain ⟨hall, _⟩ := castUint32_ok_all _ _ hcast
      rw [List.all_eq_true] at hall
      have := hall (toNum r0.spot_id)
        (List.mem_map_of_mem _ (List.mem_map_of_mem _ hr0))
      rw [hbad] at this
      simp at this

/-- A present `x` cell that fails float parsing makes the raw
`astype("float32")` raise: the whole chunk conversion fails. -/
theorem infer_error_bad_x (c : SpotCols) (rows : List SpotRow)
    (hx : c.x = true) (r0 : SpotRow) (hr0 : r0 ∈ rows) (s : String)
    (hcell : r0.x = some s) (hbad : parseFloatStr s = none) :
    (infer_and_cast c rows).isOk = false := by
  cases hi : infer_and_cast c rows with
  | error err => simp [Except.isOk, Except.toBool]
  | ok df =>
    exfalso
    have hmem : (c.x, "x", fun rows => castFloatRaise (rows.map SpotRow.x)) ∈
        colPlan c := List.Mem.head _
    have hok := buildCols_ok_builders rows (colPlan c) df.cols (infer_cols c rows df hi)
      _ hmem (by simpa using hx)
    cases hcast : castFloatRaise (rows.map SpotRow.x) with
    | error err => simp [hcast, Except.isOk, Except.toBool] at hok
    | ok cd =>
      obtain ⟨hall, _⟩ := castFloatRaise_ok_all _ _ hcast
      rw [List.all_eq_true] at hall
      have := hall r0.x (List.mem_map_of_mem _ hr0)
      rw [hcell] at this
      simp [floatCellOk, hbad] at this

end Spots

namespace Bounds

theorem goFiles_true_ok (files : List (List BRow)) :
    ∀ evs shards tp tpts evs2,
      goFiles files evs shards tp tpts = (evs2, true) →
      ∀ f ∈ files, processRows f = .ok (bKeptOf f) := by
  induction files with
  | nil => intro evs shards tp tpts evs2 _ f hf; simp at hf
  | cons f0 rest ih =>
    intro evs shards tp tpts evs2 h f hf
    cases hpr : processRows f0 with
    | error e => simp [goFiles, hpr, Prod.mk.injEq] at h
    | ok kept =>
      simp only [goFiles, hpr] at h
      cases hf with
      | head => rw [hpr, processRows_ok f0 kept hpr]
      | tail _ hmem => exact ih _ _ _ _ _ h f hmem

theorem fileShard_rows (f : List BRow) :
    (fileShard f).rows = (f.filter (fun r => !(parse_coords r.coords).isEmpty)).length := by
  simp only [fileShard, shardOf, bKeptOf, List.length_map]
  rfl

end Bounds

/-- C1: in the boundaries converter a row is excluded from the output batch
if and only if `parse_coords` on its geometry cell yields zero usable
elements (the only structural row drop), so on a run that completes each
shard records as row count the number of rows of its file surviving that filter
and the manifest total row count is the sum of those counts over all
shards. -/
theorem c1_geometry_filter_only_drop (files : List (List Bounds.BRow))
    (evs : List Bounds.Event) (h : Bounds.runBounds files = (evs, true)) :
    (∀ f ∈ files, Bounds.processRows f = .ok (Bounds.bKeptOf f)) ∧
    ∃ m : Bounds.BManifest,
      Bounds.Event.manifestWrite m ∈ evs ∧
      m.shards.map Bounds.BShard.rows =
        files.map (fun f => (f.filter (fun r => !(parse_coords r.coords).isEmpty)).length) ∧
      m.total_rows =
        (files.map (fun f => (f.filter (fun r => !(parse_coords r.coords).isEmpty)).length)).sum := by
  unfold Bounds.runBounds at h
  by_cases hne : files.isEmpty = true
  · rw [if_pos hne] at h
    simp [Prod.mk.injEq] at h
  · rw [if_neg hne] at h
    have htr := Bounds.goFiles_ok files [] [] 0 0 evs h
    refine ⟨Bounds.goFiles_true_ok files [] [] 0 0 evs h, ?_⟩
    refine ⟨⟨0 + (files.map (fun f => (Bounds.fileShard f).rows)).sum,
      0 + (files.map Bounds.filePts).sum, [] ++ files.map Bounds.fileShard⟩, ?_, ?_, ?_⟩
    · rw [htr]
      simp
    · simp only [List.nil_append, List.map_map]
      apply List.map_congr_left
      intro f _
      simp [Function.comp, Bounds.fileShard_rows]
    · simp only [Nat.zero_add]
      congr 1
      apply List.map_congr_left
      intro f _
      exact Bounds.fileShard_rows f

/-- Witness for C1 at spec Scenario A: three rows with geometry cells
`[[1,2],[3,4]]`, `[]`, `not-json` keep exactly one record. -/
theorem c1_witness :
    (∀ f ∈ [Ex.scenA], Bounds.processRows f = .ok (Bounds.bKeptOf f)) ∧
    ∃ m : Bounds.BManifest,
      Bounds.Event.manifestWrite m ∈ (Bounds.runBounds [Ex.scenA]).1 ∧
      m.shards.map Bounds.BShard.rows =
        [Ex.scenA].map (fun f => (f.filter (fun r => !(parse_coords r.coords).isEmpty)).length) ∧
      m.total_rows =
        ([Ex.scenA].map
          (fun f => (f.filter (fun r => !(parse_coords r.coords).isEmpty)).length)).sum :=
  c1_geometry_filter_only_drop [Ex.scenA] (Bounds.runBounds [Ex.scenA]).1 (by decide)

/-- C8 counterexample: a partition (plane 5) whose only row fails geometry
coercion still yields a zero-row shard file, but that shard is named with
suffix `00` and listed with partition key `-1`; the partition key 5 of the input
does not appear in the manifest at all, refuting "every distinct partition
key of the input appears exactly once in the manifest shard list". -/
theorem c8_counterexample :
    Bounds.runBounds [Ex.c8file] =
      ([Bounds.Event.shardWrite "boundaries_plane_00.feather" 0,
        Bounds.Event.manifestWrite ⟨0, 0, [⟨"boundaries_plane_00.feather", 0, -1⟩]⟩], true) ∧
    Ex.c8file.map (fun r => r.plane_id) = [some 5] ∧
    ¬ ((⟨"boundaries_plane_00.feather", 0, -1⟩ : Bounds.BShard).plane = 5) := by
  decide

/-- C8 (amended): a partition with zero surviving rows still produces a
zero-row shard (one shard per input file unconditionally on a completed
run), but its manifest entry carries url suffix `00` and partition key `-1`
rather than the own key of the partition; a partition with surviving rows is
listed under the plane id of its first surviving row. -/
theorem c8_empty_partition_shard (files : List (List Bounds.BRow))
    (evs : List Bounds.Event) (h : Bounds.runBounds files = (evs, true)) :
    ∃ m : Bounds.BManifest,
      Bounds.Event.manifestWrite m ∈ evs ∧
      m.shards.length = files.length ∧
      m.shards = files.map Bounds.fileShard ∧
      (∀ f ∈ files, Bounds.bKeptOf f = [] →
        Bounds.fileShard f = ⟨"boundaries_plane_00.feather", 0, -1⟩) ∧
      (∀ f ∈ files, ∀ k0 kt, Bounds.bKeptOf f = k0 :: kt →
        (Bounds.fileShard f).plane = k0.pid ∧ (Bounds.fileShard f).rows = kt.length + 1) := by
  unfold Bounds.runBounds at h
  by_cases hne : files.isEmpty = true
  · rw [if_pos hne] at h
    simp [Prod.mk.injEq] at h
  · rw [if_neg hne] at h
    have htr := Bounds.goFiles_ok files [] [] 0 0 evs h
    refine ⟨⟨0 + (files.map (fun f => (Bounds.fileShard f).rows)).sum,
      0 + (files.map Bounds.filePts).sum, [] ++ files.map Bounds.fileShard⟩, ?_, ?_, ?_, ?_, ?_⟩
    · rw [htr]; simp
    · simp
    · simp
    · intro f _ hk
      simp [Bounds.fileShard, Bounds.shardOf, hk]
    · intro f _ k0 kt hk
      simp [Bounds.fileShard, Bounds.shardOf, hk]

/-- Witness for C8: one empty partition and one non-empty partition. -/
theorem c8_witness :
    ∃ m : Bounds.BManifest,
      Bounds.Event.manifestWrite m ∈ (Bounds.runBounds [Ex.c8file, Ex.scenA]).1 ∧
      m.shards.length = [Ex.c8file, Ex.scenA].length ∧
      m.shards = [Ex.c8file, Ex.scenA].map Bounds.fileShard ∧
      (∀ f ∈ [Ex.c8file, Ex.scenA], Bounds.bKeptOf f = [] →
        Bounds.fileShard f = ⟨"boundaries_plane_00.feather", 0, -1⟩) ∧
      (∀ f ∈ [Ex.c8file, Ex.scenA], ∀ k0 kt, Bounds.bKeptOf f = k0 :: kt →
        (Bounds.fileShard f).plane = k0.pid ∧ (Bounds.fileShard f).rows = kt.length + 1) :=
  c8_empty_partition_shard [Ex.c8file, Ex.scenA]
    (Bounds.runBounds [Ex.c8file, Ex.scenA]).1 (by decide)

theorem runSpots_eq (c : Spots.SpotCols) (rows : List Spots.SpotRow) (k : Nat)
    (hk : ¬ k = 0) :
    Spots.runSpots c rows k = Spots.runChunks c (chunksOf k rows) 0 [] [] 0 none := by
  unfold Spots.runSpots
  rw [if_neg hk]

theorem runBounds_eq (files : List (List Bounds.BRow)) (hne : ¬ files.isEmpty = true) :
    Bounds.runBounds files = Bounds.goFiles files [] [] 0 0 := by
  unfold Bounds.runBounds
  rw [if_neg hne]

/-- C5: in both sharding converters the manifest is written exactly once,
as the first non-shard event after every shard write of the run (followed
only by the dictionary sidecar in the spots converter); a run that raises
before completing leaves a trace consisting of shard writes only — no
manifest — while the already-written shard files remain in the trace. -/
theorem c5_manifest_once_after_shards (c : Spots.SpotCols) (rows : List Spots.SpotRow)
    (k : Nat) (files : List (List Bounds.BRow)) :
    ((Spots.runSpots c rows k).2 = true →
      ∃ (pre : List Spots.Event) (m : Nat × List (String × Nat)) (post : List Spots.Event),
        (Spots.runSpots c rows k).1 = pre ++ Spots.Event.manifestWrite m.1 m.2 :: post ∧
        (∀ e ∈ pre, Spots.isShardEv e = true) ∧ (∀ e ∈ post, Spots.isDictEv e = true)) ∧
    ((Spots.runSpots c rows k).2 = false →
      ∀ e ∈ (Spots.runSpots c rows k).1, Spots.isShardEv e = true) ∧
    ((Bounds.runBounds files).2 = true →
      ∃ (pre : List Bounds.Event) (m : Bounds.BManifest),
        (Bounds.runBounds files).1 = pre ++ [Bounds.Event.manifestWrite m] ∧
        ∀ e ∈ pre, Bounds.isShardEv e = true) ∧
    ((Bounds.runBounds files).2 = false →
      ∀ e ∈ (Bounds.runBounds files).1, Bounds.isShardEv e = true) := by
  refine ⟨?_, ?_, ?_, ?_⟩
  · intro htrue
    by_cases hk : k = 0
    · rw [Spots.runSpots, if_pos hk] at htrue
      simp at htrue
    · rw [runSpots_eq c rows k hk] at htrue ⊢
      cases hr : Spots.runChunks c (chunksOf k rows) 0 [] [] 0 none with
      | mk evs b =>
        rw [hr] at htrue
        have hb : b = true := htrue
        subst hb
        have hok := Spots.runChunks_true_ok c (chunksOf k rows) 0 [] [] 0 none evs hr
        have hfull := Spots.runChunks_ok_full c (chunksOf k rows) hok 0 [] [] 0 none
        rw [hr] at hfull
        have hevs : evs = Spots.shardEvsFrom c 0 (chunksOf k rows) ++
            Spots.Event.manifestWrite (0 + Spots.totalOf c (chunksOf k rows))
              ([] ++ Spots.shardListFrom c 0 (chunksOf k rows)) ::
            Spots.dictTail (Spots.finalGd c none (chunksOf k rows)) := by
          have h2 := congrArg Prod.fst hfull
          simpa using h2
        exact ⟨Spots.shardEvsFrom c 0 (chunksOf k rows),
          (0 + Spots.totalOf c (chunksOf k rows), [] ++ Spots.shardListFrom c 0 (chunksOf k rows)),
          Spots.dictTail (Spots.finalGd c none (chunksOf k rows)), hevs,
          Spots.shardEvsFrom_all_shard c (chunksOf k rows) 0,
          Spots.dictTail_all_dict _⟩
  · intro hfalse
    by_cases hk : k = 0
    · rw [Spots.runSpots, if_pos hk]
      intro e he
      simp at he
    · rw [runSpots_eq c rows k hk] at hfalse ⊢
      cases hr : Spots.runChunks c (chunksOf k rows) 0 [] [] 0 none with
      | mk evs b =>
        rw [hr] at hfalse
        have hb : b = false := hfalse
        subst hb
        obtain ⟨mid, hmid, hall⟩ :=
          Spots.runChunks_false c (chunksOf k rows) 0 [] [] 0 none evs hr
        intro e he
        have he2 : e ∈ ([] : List Spots.Event) ++ mid := by rw [← hmid]; exact he
        rw [List.nil_append] at he2
        exact hall e he2
  · intro htrue
    by_cases hne : files.isEmpty = true
    · rw [Bounds.runBounds, if_pos hne] at htrue
      simp at htrue
    · rw [runBounds_eq files hne] at htrue ⊢
      cases hr : Bounds.goFiles files [] [] 0 0 with
      | mk evs b =>
        rw [hr] at htrue
        have hb : b = true := htrue
        subst hb
        have htr := Bounds.goFiles_ok files [] [] 0 0 evs hr
        refine ⟨files.map (fun f => Bounds.Event.shardWrite
            (Bounds.fileShard f).url (Bounds.fileShard f).rows),
          ⟨0 + (files.map (fun f => (Bounds.fileShard f).rows)).sum,
           0 + (files.map Bounds.filePts).sum, [] ++ files.map Bounds.fileShard⟩, ?_, ?_⟩
        · rw [htr]
          simp
        · intro e he
          rw [List.mem_map] at he
          obtain ⟨f, _, hf⟩ := he
          rw [← hf]
          rfl
  · intro hfalse
    by_cases hne : files.isEmpty = true
    · rw [Bounds.runBounds, if_pos hne]
      intro e he
      simp at he
    · rw [runBounds_eq files hne] at hfalse ⊢
      cases hr : Bounds.goFiles files [] [] 0 0 with
      | mk evs b =>
        rw [hr] at hfalse
        have hb : b = false := hfalse
        subst hb
        obtain ⟨mid, hmid, hall⟩ := Bounds.goFiles_false files [] [] 0 0 evs hr
        intro e he
        have he2 : e ∈ ([] : List Bounds.Event) ++ mid := by rw [← hmid]; exact he
        rw [List.nil_append] at he2
        exact hall e he2

/-- Witness for C5: a completed spots run has its manifest after all shard
writes and before only dictionary writes, and a boundaries run aborted by a
missing `plane_id` leaves a trace of shard writes only (here none). -/
theorem c5_witness :
    (∃ (pre : List Spots.Event) (m : Nat × List (String × Nat)) (post : List Spots.Event),
      (Spots.runSpots Ex.xcols Ex.xrows 2).1 =
        pre ++ Spots.Event.manifestWrite m.1 m.2 :: post ∧
      (∀ e ∈ pre, Spots.isShardEv e = true) ∧ (∀ e ∈ post, Spots.isDictEv e = true)) ∧
    (∀ e ∈ (Bounds.runBounds [Ex.badPlaneFile]).1, Bounds.isShardEv e = true) := by
  have h := c5_manifest_once_after_shards Ex.xcols Ex.xrows 2 [Ex.badPlaneFile]
  exact ⟨h.1 (by decide), h.2.2.2 (by decide)⟩

namespace Spots

theorem shardListFrom_length (c : SpotCols) :
    ∀ (chunks : List (List SpotRow)) (idx : Nat),
      (shardListFrom c idx chunks).length = chunks.length := by
  intro chunks
  induction chunks with
  | nil => intro idx; simp [shardListFrom]
  | cons ch rest ih => intro idx; simp [shardListFrom, ih]

theorem dfLens_eq (c : SpotCols) (rows : List SpotRow) (k : Nat)
    (hc : somePresent c = true)
    (hok : ∀ ch ∈ chunksOf k rows, (infer_and_cast c ch).isOk = true) :
    (chunksOf k rows).map (fun ch => dfLen (dfOf c ch)) = (chunksOf k rows).map List.length := by
  apply List.map_congr_left
  intro ch hch
  have hok1 := hok ch hch
  cases hi : infer_and_cast c ch with
  | error err => simp [hi, Except.isOk, Except.toBool] at hok1
  | ok df =>
    have hd : dfOf c ch = df := by simp [Spots.dfOf, hi]
    rw [hd]
    exact dfLen_ok c ch df hc hi

theorem runSpots_true_hok (c : SpotCols) (rows : List SpotRow) (k : Nat) (hk : ¬ k = 0)
    (hrun : (runSpots c rows k).2 = true) :
    ∀ ch ∈ chunksOf k rows, (infer_and_cast c ch).isOk = true := by
  cases hr : runChunks c (chunksOf k rows) 0 [] [] 0 none with
  | mk evs b =>
    have hrr : runSpots c rows k = (evs, b) := by
      rw [runSpots, if_neg hk, hr]
    rw [hrr] at hrun
    have hb : b = true := hrun
    subst hb
    exact runChunks_true_ok c (chunksOf k rows) 0 [] [] 0 none evs hr

end Spots

/-- C6 counterexample: five input rows whose header declares only
`gene_name` (a source column the converter reads but never emits) are split
with rows-per-shard 2 into three shards, yet each shard records 0 rows and
the manifest field `total_rows` is 0, not 5 — refuting "every shard except
possibly the last has exactly k rows … total_rows = 5" for this input. -/
theorem c6_counterexample :
    (Spots.runSpots Ex.c6cols Ex.c6rows 2).2 = true ∧
    Ex.c6rows.length = 5 ∧
    Spots.manifestOf (Spots.runSpots Ex.c6cols Ex.c6rows 2).1 =
      some (0, [("spots_shard_000.feather", 0), ("spots_shard_001.feather", 0),
                ("spots_shard_002.feather", 0)]) ∧
    ¬ (Spots.manifestOf (Spots.runSpots Ex.c6cols Ex.c6rows 2).1 =
        some (5, [("spots_shard_000.feather", 2), ("spots_shard_001.feather", 2),
                  ("spots_shard_002.feather", 1)])) := by
  decide

/-- C6 (amended): under row-count sharding with `0 < k`, on a completed run
whose header declares at least one recognised output column, there is one
shard per chunk with shard names indexed 0, 1, 2, …; shard row counts are
`(n-1)/k` shards of exactly `k` rows followed by one shard holding the
remainder; the manifest field `total_rows` equals the sum of the per-shard
counts, which is the input row count (so k = 2, n = 5 gives shards
[2,2,1] and total 5, per the witness). -/
theorem c6_rowcount_sharding (c : Spots.SpotCols) (rows : List Spots.SpotRow) (k : Nat)
    (hk : 0 < k) (hc : Spots.somePresent c = true)
    (hrun : (Spots.runSpots c rows k).2 = true) :
    ∃ shards : List (String × Nat),
      Spots.manifestOf (Spots.runSpots c rows k).1 = some (rows.length, shards) ∧
      shards.map Prod.snd = Spots.chunkLens k rows.length ∧
      shards.map Prod.fst = (List.range shards.length).map Spots.spotsShardName ∧
      shards.length = (chunksOf k rows).length ∧
      (shards.map Prod.snd).sum = rows.length := by
  have hk0 : ¬ k = 0 := by omega
  have hok := Spots.runSpots_true_hok c rows k hk0 hrun
  refine ⟨Spots.shardListFrom c 0 (chunksOf k rows), ?_, ?_, ?_, ?_, ?_⟩
  · rw [Spots.runSpots_manifestOf c rows k hk0 hok,
      Spots.totalOf_eq_length c rows k hk hc hok]
  · rw [Spots.shardListFrom_rows, Spots.dfLens_eq c rows k hc hok,
      chunksOf_map_length k hk rows.length rows (le_refl _)]
  · rw [Spots.shardListFrom_names, Spots.shardListFrom_length]
    apply List.map_congr_left
    intro j _
    rw [Nat.zero_add]
  · exact Spots.shardListFrom_length c (chunksOf k rows) 0
  · rw [Spots.shardListFrom_rows]
    have : ((chunksOf k rows).map (fun ch => Spots.dfLen (Spots.dfOf c ch))).sum =
        Spots.totalOf c (chunksOf k rows) := rfl
    rw [this, Spots.totalOf_eq_length c rows k hk hc hok]

/-- Witness for C6 at k = 2 over five rows with an `x` column. -/
theorem c6_witness :
    ∃ shards : List (String × Nat),
      Spots.manifestOf (Spots.runSpots Ex.xcols Ex.xrows 2).1 =
        some (Ex.xrows.length, shards) ∧
      shards.map Prod.snd = Spots.chunkLens 2 Ex.xrows.length ∧
      shards.map Prod.fst = (List.range shards.length).map Spots.spotsShardName ∧
      shards.length = (chunksOf 2 Ex.xrows).length ∧
      (shards.map Prod.snd).sum = Ex.xrows.length :=
  c6_rowcount_sharding Ex.xcols Ex.xrows 2 (by decide) (by decide) (by decide)

namespace Spots

theorem chunksOf_ne_nil (k : Nat) (hk : 0 < k) (x : α) (xs : List α) :
    chunksOf k (x :: xs) ≠ [] := by
  rw [chunksOf_cons k hk x xs]
  simp

theorem mem_of_getLast? : ∀ (l : List α) (x : α), l.getLast? = some x → x ∈ l := by
  intro l
  induction l with
  | nil => intro x h; simp at h
  | cons a rest ih =>
    intro x h
    cases rest with
    | nil =>
      simp at h
      simp [h]
    | cons b t =>
      rw [List.getLast?_cons_cons] at h
      exact List.Mem.tail _ (ih x h)

theorem lastPairValue_mem (pairs : List (Int × String)) (k : Int) (v : String)
    (h : lastPairValue pairs k = some v) : (k, v) ∈ pairs := by
  unfold lastPairValue at h
  cases hL : (pairs.filter (fun p => decide (p.1 = k))).getLast? with
  | none => simp [hL] at h
  | some q =>
    rw [hL] at h
    simp only [Option.map] at h
    have hmem := mem_of_getLast? _ q hL
    have hfil := List.of_mem_filter hmem
    have hmem2 := List.mem_of_mem_filter hmem
    simp at hfil
    have hq : q = (k, v) := by
      cases q with
      | mk qk qv =>
        simp at hfil h
        simp [hfil, ← h]
    rw [← hq]
    exact hmem2

theorem lastPairValue_isSome (pairs : List (Int × String)) (p0 : Int × String)
    (hmem : p0 ∈ pairs) : (lastPairValue pairs p0.1).isSome = true := by
  unfold lastPairValue
  have hfmem : p0 ∈ pairs.filter (fun p => decide (p.1 = p0.1)) :=
    List.mem_filter.mpr ⟨hmem, by simp⟩
  cases hF : pairs.filter (fun p => decide (p.1 = p0.1)) with
  | nil => rw [hF] at hfmem; simp at hfmem
  | cons x t =>
    cases hL : (x :: t).getLast? with
    | none => exact absurd hL (getLast?_cons_ne_none x t)
    | some q => simp [hL]

/-- The sidecar a completed run with gene columns persists: sorted, with
distinct keys, mapping each key to the gene name of the last input row
carrying it. -/
theorem sidecar_spec (c : SpotCols) (rows : List SpotRow) (k : Nat)
    (hg : c.gene_id = true) (hn : c.gene_name = true) (hk : 0 < k) (hr : rows ≠ [])
    (hok : ∀ ch ∈ chunksOf k rows, (infer_and_cast c ch).isOk = true) :
    ∃ sidecar : List (Int × String),
      dictOf (runSpots c rows k).1 = some sidecar ∧
      List.Pairwise (fun a b : Int × String => a.1 ≤ b.1) sidecar ∧
      (sidecar.map Prod.fst).Nodup ∧
      ∀ id, alookup id sidecar = lastPairValue (genePairs rows) id := by
  have hk0 : ¬ k = 0 := by omega
  obtain ⟨x, xs, hrows⟩ : ∃ x xs, rows = x :: xs := by
    cases rows with
    | nil => exact absurd rfl hr
    | cons x xs => exact ⟨x, xs, rfl⟩
  have hne : chunksOf k rows ≠ [] := by
    rw [hrows]; exact chunksOf_ne_nil k hk x xs
  have hflat : (chunksOf k rows).flatten = rows :=
    chunksOf_join k hk rows.length rows (le_refl _)
  have hgd : finalGd c none (chunksOf k rows) =
      some (dictInsertAll [] (genePairs rows)) := by
    rw [finalGd_none c hg hn (chunksOf k rows) hne, hflat]
  have hpairs_ne : genePairs rows ≠ [] := by
    rw [hrows]
    simp [genePairs]
  have hD_ne : dictInsertAll [] (genePairs rows) ≠ [] :=
    dictInsertAll_ne_nil (genePairs rows) [] (Or.inr hpairs_ne)
  have hD_nodup : NodupKeys (dictInsertAll [] (genePairs rows)) :=
    nodupKeys_dictInsertAll (genePairs rows) [] (by simp [NodupKeys])
  have hdict := runSpots_dictOf c rows k hk0 hok
  rw [hgd] at hdict
  have hDempty : (dictInsertAll [] (genePairs rows)).isEmpty = false := by
    cases hDD : dictInsertAll [] (genePairs rows) with
    | nil => exact absurd hDD hD_ne
    | cons a t => simp
  simp only [hDempty, Bool.false_eq_true, if_false] at hdict
  refine ⟨sortByKey (dictInsertAll [] (genePairs rows)), hdict,
    sorted_sortByKey _, nodupKeys_sortByKey _ hD_nodup, ?_⟩
  intro id
  rw [alookup_sortByKey _ hD_nodup id, alookup_dictInsertAll (genePairs rows) [] id]
  cases lastPairValue (genePairs rows) id with
  | none => simp [alookup]
  | some v => simp

end Spots

/-- C2 counterexample: for category (gene name) values seen in order
A, B, A, C the code does not assign sequential ids — it reads the supplied
`gene_id` column.  With input ids 5, 7, 5, 9 the persisted sidecar is
exactly 5 → A, 7 → B, 9 → C and the output id column is [5, 7, 5, 9],
refuting the claimed sidecar 0 → A, 1 → B, 2 → C and ids [0, 1, 0, 2]. -/
theorem c2_counterexample :
    Ex.c2rows.map (fun r => r.gene_name) = [some "A", some "B", some "A", some "C"] ∧
    Spots.dictOf (Spots.runSpots Ex.genecols Ex.c2rows 10).1 =
      some [(5, "A"), (7, "B"), (9, "C")] ∧
    (Spots.shardDfs (Spots.runSpots Ex.genecols Ex.c2rows 10).1).map
        (fun df => Spots.dfCol df "gene_id") =
      [some (Spots.ColData.uint32Col [5, 7, 5, 9])] ∧
    ¬ (Spots.dictOf (Spots.runSpots Ex.genecols Ex.c2rows 10).1 =
        some [(0, "A"), (1, "B"), (2, "C")]) := by
  decide

/-- C2 (amended): the spots converter performs no id assignment; the
persisted sidecar maps each input-supplied gene id (coerced with missing →
0, missing name → "") to the gene name of the *last* input row carrying
that id, with keys sorted ascending and each key present once, and every
output `gene_id` column of every shard holds the input ids of the rows of its chunk;
when the input itself encodes names first-seen-sequentially the claimed
sidecar and id column follow (see the witness). -/
theorem c2_dictionary_from_input (c : Spots.SpotCols) (rows : List Spots.SpotRow) (k : Nat)
    (hg : c.gene_id = true) (hn : c.gene_name = true) (hk : 0 < k) (hr : rows ≠ [])
    (hrun : (Spots.runSpots c rows k).2 = true) :
    ∃ sidecar : List (Int × String),
      Spots.dictOf (Spots.runSpots c rows k).1 = some sidecar ∧
      List.Pairwise (fun a b : Int × String => a.1 ≤ b.1) sidecar ∧
      (sidecar.map Prod.fst).Nodup ∧
      (∀ id, Spots.alookup id sidecar = Spots.lastPairValue (Spots.genePairs rows) id) ∧
      (Spots.shardDfs (Spots.runSpots c rows k).1).map (fun df => Spots.dfCol df "gene_id") =
        (chunksOf k rows).map
          (fun ch => some (Spots.ColData.uint32Col (ch.map Spots.geneVal))) ∧
      ((chunksOf k rows).map (fun ch => ch.map Spots.geneVal)).flatten =
        rows.map Spots.geneVal := by
  have hk0 : ¬ k = 0 := by omega
  have hok := Spots.runSpots_true_hok c rows k hk0 hrun
  obtain ⟨sidecar, hdict, hsort, hnd, hlook⟩ :=
    Spots.sidecar_spec c rows k hg hn hk hr hok
  refine ⟨sidecar, hdict, hsort, hnd, hlook, ?_, ?_⟩
  · rw [Spots.runSpots_shardDfs c rows k hk0 hok, List.map_map]
    apply List.map_congr_left
    intro ch hch
    have hok1 := hok ch hch
    cases hi : Spots.infer_and_cast c ch with
    | error err => simp [hi, Except.isOk, Except.toBool] at hok1
    | ok df =>
      have hd : Spots.dfOf c ch = df := by simp [Spots.dfOf, hi]
      simp only [Function.comp, hd]
      exact (Spots.geneCol_of_ok c ch df hg hi).1
  · rw [← List.map_flatten, chunksOf_join k hk rows.length rows (le_refl _)]

/-- Witness for C2: names A, B, A, C with input ids 0, 1, 0, 2 (the
first-seen-sequential encoding) produce sidecar 0 → A, 1 → B, 2 → C and
output id column [0, 1, 0, 2]. -/
theorem c2_witness :
    (∃ sidecar : List (Int × String),
      Spots.dictOf (Spots.runSpots Ex.genecols Ex.c2rowsSeq 10).1 = some sidecar ∧
      List.Pairwise (fun a b : Int × String => a.1 ≤ b.1) sidecar ∧
      (sidecar.map Prod.fst).Nodup ∧
      (∀ id, Spots.alookup id sidecar =
        Spots.lastPairValue (Spots.genePairs Ex.c2rowsSeq) id) ∧
      (Spots.shardDfs (Spots.runSpots Ex.genecols Ex.c2rowsSeq 10).1).map
          (fun df => Spots.dfCol df "gene_id") =
        (chunksOf 10 Ex.c2rowsSeq).map
          (fun ch => some (Spots.ColData.uint32Col (ch.map Spots.geneVal))) ∧
      ((chunksOf 10 Ex.c2rowsSeq).map (fun ch => ch.map Spots.geneVal)).flatten =
        Ex.c2rowsSeq.map Spots.geneVal) ∧
    Spots.dictOf (Spots.runSpots Ex.genecols Ex.c2rowsSeq 10).1 =
      some [(0, "A"), (1, "B"), (2, "C")] ∧
    Ex.c2rowsSeq.map Spots.geneVal = [0, 1, 0, 2] :=
  ⟨c2_dictionary_from_input Ex.genecols Ex.c2rowsSeq 10 (by decide) (by decide)
      (by decide) (by decide) (by decide),
    by decide, by decide⟩

/-- C7 counterexample: two input rows share gene id 1 with different gene
names A and B; the run completes, the sidecar maps 1 → B (last occurrence
wins), and the id 1 of the first output row therefore resolves to B, not to its
own original name A. -/
theorem c7_counterexample :
    Ex.c7rows.map (fun r => r.gene_name) = [some "A", some "B"] ∧
    Spots.dictOf (Spots.runSpots Ex.genecols Ex.c7rows 10).1 = some [(1, "B")] ∧
    (Spots.shardDfs (Spots.runSpots Ex.genecols Ex.c7rows 10).1).map
        (fun df => Spots.dfCol df "gene_id") =
      [some (Spots.ColData.uint32Col [1, 1])] ∧
    Spots.alookup 1 [(1, "B")] = some "B" ∧
    ¬ ("B" = "A") := by
  decide

/-- C7 (amended): on a completed run, resolving the gene id of an output row in
the sidecar yields the gene name of the last input row with that id; it
reproduces the original name of the row itself whenever the input associates each
gene id with a single gene name and the id of the row is in uint32 range. -/
theorem c7_roundtrip_functional (c : Spots.SpotCols) (rows : List Spots.SpotRow) (k : Nat)
    (hg : c.gene_id = true) (hn : c.gene_name = true) (hk : 0 < k) (hr : rows ≠ [])
    (hrun : (Spots.runSpots c rows k).2 = true)
    (hfun : ∀ r ∈ rows, ∀ r2 ∈ rows,
      Spots.geneKey r = Spots.geneKey r2 → r.gene_name = r2.gene_name)
    (hrange : ∀ r ∈ rows, 0 ≤ Spots.geneKey r ∧ Spots.geneKey r < 2 ^ 32) :
    ∃ sidecar : List (Int × String),
      Spots.dictOf (Spots.runSpots c rows k).1 = some sidecar ∧
      ∀ r ∈ rows, ∀ nm, r.gene_name = some nm →
        Spots.alookup (Int.ofNat (Spots.geneVal r)) sidecar = some nm := by
  have hk0 : ¬ k = 0 := by omega
  have hok := Spots.runSpots_true_hok c rows k hk0 hrun
  obtain ⟨sidecar, hdict, _, _, hlook⟩ := Spots.sidecar_spec c rows k hg hn hk hr hok
  refine ⟨sidecar, hdict, ?_⟩
  intro r hrm nm hnm
  have hwrap : Int.ofNat (Spots.geneVal r) = Spots.geneKey r := by
    obtain ⟨h0, hlt⟩ := hrange r hrm
    unfold Spots.geneVal wrapU32
    rw [show (Spots.geneKey r).emod (2 ^ 32) = Spots.geneKey r from Int.emod_eq_of_lt h0 hlt]
    exact Int.toNat_of_nonneg h0
  rw [hwrap, hlook (Spots.geneKey r)]
  have hpmem : (Spots.geneKey r, r.gene_name.getD "") ∈ Spots.genePairs rows := by
    unfold Spots.genePairs Spots.geneKey
    exact List.mem_map_of_mem _ hrm
  have hsome := Spots.lastPairValue_isSome (Spots.genePairs rows)
    (Spots.geneKey r, r.gene_name.getD "") hpmem
  cases hlv : Spots.lastPairValue (Spots.genePairs rows) (Spots.geneKey r) with
  | none => rw [hlv] at hsome; simp at hsome
  | some v =>
    have hvmem := Spots.lastPairValue_mem _ _ _ hlv
    unfold Spots.genePairs at hvmem
    rw [List.mem_map] at hvmem
    obtain ⟨r2, hr2m, hr2⟩ := hvmem
    have hkeys : Spots.geneKey r2 = Spots.geneKey r := by
      have := congrArg Prod.fst hr2
      simpa [Spots.geneKey] using this
    have hval : v = r2.gene_name.getD "" := by
      have := congrArg Prod.snd hr2
      simpa using this.symm
    have hname := hfun r2 hr2m r hrm hkeys
    rw [hval, hname, hnm]
    rfl

/-- Witness for C7: distinct ids 0, 1, 2 with names A, B, C round-trip. -/
theorem c7_witness :
    ∃ sidecar : List (Int × String),
      Spots.dictOf (Spots.runSpots Ex.genecols Ex.c2rowsSeq 10).1 = some sidecar ∧
      ∀ r ∈ Ex.c2rowsSeq, ∀ nm, r.gene_name = some nm →
        Spots.alookup (Int.ofNat (Spots.geneVal r)) sidecar = some nm :=
  c7_roundtrip_functional Ex.genecols Ex.c2rowsSeq 10 (by decide) (by decide) (by decide)
    (by decide) (by decide) (by decide) (by decide)

/-- C3 counterexample: a single `spot_id` cell that fails numeric parsing
(`"abc"`, coerced to NaN) makes `astype("uint32")` raise, aborting the
whole run with no shard and no manifest — refuting "a malformed numeric
cell never causes the row to be dropped, the batch to be aborted, or the
run to fail". -/
theorem c3_counterexample :
    toNum (some "abc") = none ∧
    Spots.runSpots Ex.c3cols Ex.c3rows 5 = ([], false) := by
  decide

/-- C3 (amended): malformed numeric cells degrade per cell only for some
columns — `parent_cell_id` falls back to the sentinel −1 with the row kept,
and the coerced `omp_score` column turns an unparsable cell into a null
with the row kept — but a present `x` cell that fails float parsing aborts
the whole run (raw `astype("float32")` raises on the string column), a
`spot_id` cell that fails numeric parsing aborts the whole run
(`astype("uint32")` on NaN raises), and in the boundaries converter a
missing `plane_id` raises before the row loop can drop or keep anything. -/
theorem c3_sentinel_vs_abort (c : Spots.SpotCols) (rows : List Spots.SpotRow) :
    ((c.parent_cell_id = true → ∀ df, Spots.infer_and_cast c rows = .ok df →
        Spots.dfCol df "parent_cell_id" =
          some (Spots.ColData.int32Col (rows.map Spots.parentVal))) ∧
     (c.omp_score = true → ∀ df, Spots.infer_and_cast c rows = .ok df →
        Spots.dfCol df "omp_score" =
          some (Spots.ColData.floatCol ((rows.map Spots.SpotRow.omp_score).map toNum)))) ∧
    (∀ r : Spots.SpotRow, toNum r.parent_cell_id = none → Spots.parentVal r = -1) ∧
    (c.x = true → ∀ r0 ∈ rows, ∀ s, r0.x = some s → parseFloatStr s = none →
      (Spots.infer_and_cast c rows).isOk = false) ∧
    (c.spot_id = true → ∀ r0 ∈ rows, toNum r0.spot_id = none →
      (Spots.infer_and_cast c rows).isOk = false) ∧
    (∀ (br : Bounds.BRow) (rest : List Bounds.BRow), br.plane_id = none →
      Bounds.processRows (br :: rest) = .error ()) := by
  refine ⟨⟨?_, ?_⟩, ?_, ?_, ?_, ?_⟩
  · intro hp df hdf
    rw [Spots.dfCol_infer c rows df hdf "parent_cell_id",
      Spots.firstActive_parent c rows hp]
  · intro hp df hdf
    rw [Spots.dfCol_infer c rows df hdf "omp_score",
      Spots.firstActive_omp_score c rows hp]
  · intro r h
    unfold Spots.parentVal
    rw [h]
    decide
  · intro hxf r0 hr0 s hcell hbad
    exact Spots.infer_error_bad_x c rows hxf r0 hr0 s hcell hbad
  · intro hs r0 hr0 hbad
    exact Spots.infer_error_bad_spot_id c rows hs r0 hr0 hbad
  · intro br rest h
    unfold Bounds.processRows
    rw [h]

/-- Witness for C3: a malformed `parent_cell_id` cell yields −1 with the
row kept, a malformed `omp_score` cell yields a null with the row kept, a
malformed `x` cell aborts the conversion, and the malformed `spot_id` input
of the counterexample makes the cast raise. -/
theorem c3_witness :
    Spots.dfCol ⟨[("parent_cell_id", Spots.ColData.int32Col [-1])]⟩ "parent_cell_id" =
      some (Spots.ColData.int32Col
        ([({ parent_cell_id := some "zz" } : Spots.SpotRow)].map Spots.parentVal)) ∧
    Spots.parentVal { parent_cell_id := some "zz" } = -1 ∧
    Spots.dfCol ⟨[("omp_score", Spots.ColData.floatCol [none])]⟩ "omp_score" =
      some (Spots.ColData.floatCol
        (([({ omp_score := some "zz" } : Spots.SpotRow)].map Spots.SpotRow.omp_score).map
          toNum)) ∧
    (Spots.infer_and_cast { x := true } [{ x := some "abc" }]).isOk = false ∧
    (Spots.infer_and_cast Ex.c3cols Ex.c3rows).isOk = false := by
  obtain ⟨⟨hB, _⟩, hC, _, _, _⟩ :=
    c3_sentinel_vs_abort { parent_cell_id := true } [{ parent_cell_id := some "zz" }]
  obtain ⟨⟨_, hO⟩, _, _, _, _⟩ :=
    c3_sentinel_vs_abort { omp_score := true } [{ omp_score := some "zz" }]
  obtain ⟨_, _, hX, _, _⟩ :=
    c3_sentinel_vs_abort { x := true } [({ x := some "abc" } : Spots.SpotRow)]
  obtain ⟨_, _, _, hD2, _⟩ := c3_sentinel_vs_abort Ex.c3cols Ex.c3rows
  refine ⟨?_, hC _ (by decide), ?_, ?_, ?_⟩
  · exact hB rfl ⟨[("parent_cell_id", Spots.ColData.int32Col [-1])]⟩ (by rfl)
  · exact hO rfl ⟨[("omp_score", Spots.ColData.floatCol [none])]⟩ (by rfl)
  · exact hX rfl { x := some "abc" } (by decide) "abc" (by decide) (by decide)
  · exact hD2 rfl { spot_id := some "abc" } (by decide) (by decide)

theorem pairConv_none_of_not_pair (l : List JVal) (h : ¬ l.length = 2) :
    pairConv (JVal.jlist l) = none := by
  cases l with
  | nil => rfl
  | cons a t =>
    cases t with
    | nil => rfl
    | cons b t2 =>
      cases t2 with
      | nil => simp at h
      | cons c t3 => rfl

/-- C4 counterexample: in `parse_coords`, a single element whose first
component fails `float` conversion (`"abc"`) empties the whole cell — the
remaining well-formed pair `[3, 4]` (parseable on its own) is discarded too,
refuting "one bad element never causes the whole list of the cell to be
discarded or emptied". -/
theorem c4_counterexample :
    parse_coords (some "[[\"abc\", 2], [3, 4]]") = [] ∧
    parse_coords (some "[[3, 4]]") = [(3, 4)] ∧
    ¬ (parse_coords (some "[[\"abc\", 2], [3, 4]]") = [(3, 4)]) := by
  decide

/-- C4 (amended): per-element drop holds for the int and
float list parsers (each failing element is skipped on its own) and for the
arity check of `parse_coords` (non-pair elements are skipped individually);
but an element that passes the arity check and then fails `float`
conversion raises out of the loop, so `coordsLoop` keeps exactly the
convertible pairs only when every well-shaped element converts. -/
theorem c4_per_element_drop :
    (∀ v : List JVal, intListLoop v = v.filterMap pyInt) ∧
    (∀ v : List JVal, floatListLoop v = v.filterMap pyFloat) ∧
    (∀ arr : List JVal, (∀ p ∈ arr, isPairShape p = true → (pairConv p).isSome = true) →
      coordsLoop arr = some (arr.filterMap pairConv)) := by
  refine ⟨?_, ?_, ?_⟩
  · intro v
    induction v with
    | nil => rfl
    | cons x rest ih =>
      cases hx : pyInt x with
      | none => simp [intListLoop, hx, List.filterMap_cons, ih]
      | some n => simp [intListLoop, hx, List.filterMap_cons, ih]
  · intro v
    induction v with
    | nil => rfl
    | cons x rest ih =>
      cases hx : pyFloat x with
      | none => simp [floatListLoop, hx, List.filterMap_cons, ih]
      | some q => simp [floatListLoop, hx, List.filterMap_cons, ih]
  · intro arr
    induction arr with
    | nil => intro _; rfl
    | cons p rest ih =>
      intro hall
      have ihr := ih (fun q hq => hall q (List.mem_cons_of_mem _ hq))
      cases p with
      | jlist l =>
        by_cases hlen : l.length = 2
        · obtain ⟨a, b, hab⟩ := List.length_eq_two.mp hlen
          subst hab
          have hshape : isPairShape (JVal.jlist [a, b]) = true := by simp [isPairShape]
          have hconv := hall (JVal.jlist [a, b]) (List.mem_cons_self _ _) hshape
          cases hca : pyFloat a with
          | none => simp [pairConv, hca] at hconv
          | some x =>
            cases hcb : pyFloat b with
            | none => simp [pairConv, hca, hcb] at hconv
            | some y =>
              simp only [coordsLoop]
              rw [show (JVal.jlist [a, b] :: rest).filterMap pairConv =
                  (x, y) :: rest.filterMap pairConv by
                simp [List.filterMap_cons, pairConv, hca, hcb]]
              simp [hca, hcb, ihr]
        · simp only [coordsLoop, hlen, dif_neg]
          rw [show (JVal.jlist l :: rest).filterMap pairConv = rest.filterMap pairConv by
            simp [List.filterMap_cons, pairConv_none_of_not_pair l hlen]]
          exact ihr
      | jnull =>
        simp only [coordsLoop]
        rw [show (JVal.jnull :: rest).filterMap pairConv = rest.filterMap pairConv by
          simp [List.filterMap_cons, pairConv]]
        exact ihr
      | jbool b =>
        simp only [coordsLoop]
        rw [show (JVal.jbool b :: rest).filterMap pairConv = rest.filterMap pairConv by
          simp [List.filterMap_cons, pairConv]]
        exact ihr
      | jnum q =>
        simp only [coordsLoop]
        rw [show (JVal.jnum q :: rest).filterMap pairConv = rest.filterMap pairConv by
          simp [List.filterMap_cons, pairConv]]
        exact ihr
      | jstr s =>
        simp only [coordsLoop]
        rw [show (JVal.jstr s :: rest).filterMap pairConv = rest.filterMap pairConv by
          simp [List.filterMap_cons, pairConv]]
        exact ihr
      | jobj kvs =>
        simp only [coordsLoop]
        rw [show (JVal.jobj kvs :: rest).filterMap pairConv = rest.filterMap pairConv by
          simp [List.filterMap_cons, pairConv]]
        exact ihr

/-- Witness for C4: a mixed array with a scalar and an over-long tuple
among one good pair keeps exactly the good pair. -/
theorem c4_witness :
    coordsLoop [JVal.jnum 1, JVal.jlist [JVal.jnum 1, JVal.jnum 2, JVal.jnum 3],
        JVal.jlist [JVal.jnum 3, JVal.jnum 4]] =
      some ([JVal.jnum 1, JVal.jlist [JVal.jnum 1, JVal.jnum 2, JVal.jnum 3],
        JVal.jlist [JVal.jnum 3, JVal.jnum 4]].filterMap pairConv) ∧
    [JVal.jnum 1, JVal.jlist [JVal.jnum 1, JVal.jnum 2, JVal.jnum 3],
        JVal.jlist [JVal.jnum 3, JVal.jnum 4]].filterMap pairConv = [(3, 4)] :=
  ⟨c4_per_element_drop.2.2 _ (by decide), by decide⟩

/-- C9 counterexample: in the spots converter, a list cell whose top-level
content is unparsable yields `None` — a *null* list cell in the Arrow
output — not the empty list the claim asserts. -/
theorem c9_counterexample :
    parse_int_list (some "not-json") = none ∧
    parse_float_list (some "not-json") = none ∧
    ¬ (parse_int_list (some "not-json") = some []) := by
  decide

/-- C9 (amended): unparsable top-level content never raises; it degrades to
the empty list in the boundaries converter (`parse_coords`) and the cells
converter (both modes of `parse_list_column`, whose parse runs after quote
replacement), but to a null cell (`None`) in the int and
float list parsers. -/
theorem c9_unparsable_degrades (s : String) :
    (jsonLoads s = none →
      parse_coords (some s) = [] ∧ parse_int_list (some s) = none ∧
        parse_float_list (some s) = none) ∧
    (jsonLoads (replaceQuotes s) = none →
      parse_cell_floats (some s) = [] ∧ parse_cell_strings (some s) = []) := by
  constructor
  · intro h
    refine ⟨?_, ?_, ?_⟩ <;> simp [parse_coords, parse_int_list, parse_float_list, h]
  · intro h
    constructor <;> simp [parse_cell_floats, parse_cell_strings, h]

/-- Witness for C9 on the unparsable cell `not-json`. -/
theorem c9_witness :
    jsonLoads "not-json" = none ∧
    parse_coords (some "not-json") = [] ∧
    parse_cell_floats (some "not-json") = [] ∧
    parse_cell_strings (some "not-json") = [] ∧
    parse_int_list (some "not-json") = none := by
  have h1 := (c9_unparsable_degrades "not-json").1 (by rfl)
  have h2 := (c9_unparsable_degrades "not-json").2 (by rfl)
  exact ⟨by rfl, h1.1, h2.1, h2.2, h1.2.1⟩

/-- C10 counterexample: the quote replacement always happens, but a cell
whose single element string embeds *two* apostrophes, `["a\x27,\x27b"]`,
re-parses after replacement as the valid two-element list `["a", "b"]` —
not the empty list the claim predicts for every cell with an embedded
apostrophe. -/
theorem c10_counterexample :
    firstElemStr (jsonLoads twoAposCell) = some (String.mk ['a', apos, ',', apos, 'b']) ∧
    (String.mk ['a', apos, ',', apos, 'b']).toList.contains apos = true ∧
    parse_cell_strings (some twoAposCell) = ["a", "b"] ∧
    ¬ (parse_cell_strings (some twoAposCell) = []) := by
  decide

/-- C10 (amended): every single-quote character is replaced by a double
quote before JSON parsing (so parsing is invariant under pre-replacement);
a cell whose element embeds a single apostrophe, such as `["it\x27s"]`,
becomes invalid JSON and the whole cell coerces to the empty list; but a
cell whose element embeds several apostrophes can instead re-parse as a
different valid list. -/
theorem c10_quote_replacement :
    (∀ s : String, parse_cell_strings (some (replaceQuotes s)) = parse_cell_strings (some s)) ∧
    (∀ s : String, parse_cell_floats (some (replaceQuotes s)) = parse_cell_floats (some s)) ∧
    parse_cell_strings (some itsCell) = [] ∧
    parse_cell_strings (some twoAposCell) = ["a", "b"] := by
  have hfun : ∀ c : Char, (fun c => if c = apos then dq else c)
      ((fun c => if c = apos then dq else c) c) = (fun c => if c = apos then dq else c) c := by
    intro c
    by_cases hc : c = apos
    · simp [hc]
    · simp [hc]
  have hidem : ∀ s : String, replaceQuotes (replaceQuotes s) = replaceQuotes s := by
    intro s
    unfold replaceQuotes
    congr 1
    rw [show (String.mk (s.toList.map (fun c => if c = apos then dq else c))).toList =
        s.toList.map (fun c => if c = apos then dq else c) from rfl]
    rw [List.map_map]
    apply List.map_congr_left
    intro c _
    exact hfun c
  refine ⟨?_, ?_, by rfl, by rfl⟩
  · intro s
    simp only [parse_cell_strings, hidem s]
  · intro s
    simp only [parse_cell_floats, hidem s]

/-! Sanity checks of the embedded parser and coercers on concrete cells. -/

example : jsonLoads "[[1,2],[3,4]]" =
    some (JVal.jlist [JVal.jlist [JVal.jnum 1, JVal.jnum 2],
                      JVal.jlist [JVal.jnum 3, JVal.jnum 4]]) := by rfl

example : jsonLoads "not-json" = none := by rfl

example : jsonLoads "[]" = some (JVal.jlist []) := by rfl

example : jsonLoads "[1,2] trailing" = none := by rfl

example : numOf (jsonLoads "1.5") = mkRat 3 2 := by decide

example : numOf (jsonLoads "-2e2") = mkRat (-200) 1 := by decide

example : numOf (jsonLoads "2.25e1") = mkRat 45 2 := by decide

example : parse_coords (some "[[1,2],[3,4]]") = [(1, 2), (3, 4)] := by decide

example : parse_coords (some "[]") = [] := by decide

example : parse_coords (some "[[1,2,3],[4,5]]") = [(4, 5)] := by decide

example : parse_int_list (some "[1, 2, 3]") = some [1, 2, 3] := by decide

example : parse_int_list (some "[1, null, 3]") = some [1, 3] := by decide

example : parse_cell_strings (some "[1, 2]") = ["1", "2"] := by decide

example :
    Bounds.runBounds [[{plane_id := some 3, label := some 7, coords := some "[[1,2],[3,4]]"},
                       {plane_id := some 3, label := some 8, coords := some "[]"},
                       {plane_id := some 3, label := some 9, coords := some "not-json"}]] =
    ([Bounds.Event.shardWrite "boundaries_plane_03.feather" 1,
      Bounds.Event.manifestWrite ⟨1, 2, [⟨"boundaries_plane_03.feather", 1, 3⟩]⟩], true) := by decide
